import Mathlib

/-!
# ECIES encrypt / decrypt (crypto/ecies/ecies_lib.c)

A shallow embedding of `ECIES_do_encrypt` and `ECIES_do_decrypt`.

* C `int` values are `Int`, narrowed with `toInt32` at every conversion from
  `size_t`; `size_t` values are `Nat`, produced from an `int` with `toSizeT`
  (an LP64 target: 32-bit `int`, 64-bit `size_t`).  The `int` sum
  `enckeylen + mackeylen` wraps modulo 2^32.
* The elliptic-curve, KDF, cipher, MAC and allocation routines the two
  functions call are not part of the file; they are the fields of `Crypto`
  (deterministic library routines and constants) and of `Env` (what one call
  meets at run time: allocation outcomes and the freshly generated key).
* Both functions are written in the shape of the C code: a body that runs to
  the label `err`, and the clean-up code that follows the label.  The state
  records every library call in order (`calls`) and every `ECIESerr` (`errs`).
* `none` as the outcome of a function is undefined behaviour of the C code:
  a read through a NULL `cv->ciphertext`, a read of the MAC key or of the
  ciphertext bytes outside their buffers in `ECIES_do_decrypt` (a negative
  length field, or one beyond the data), or a write past the end of a buffer.
-/

namespace ECIES

abbrev Byte := BitVec 8
abbrev Bytes := List Byte

/-- Conversion of an integer value to a 32-bit two's complement C `int`. -/
def toInt32 (z : Int) : Int := (z + 2147483648) % 4294967296 - 2147483648

/-- Conversion of a C `int` to a 64-bit `size_t`. -/
def toSizeT (z : Int) : Nat := (z % 18446744073709551616).toNat

/-- Fresh heap storage of `n` bytes.  C leaves the contents unspecified; the
model fills it with zero bytes. -/
def alloc (n : Int) : Bytes := List.replicate n.toNat 0

/-- Store `src` into `buf` starting at byte offset `off`; `none` when the
store would run past the end of `buf`. -/
def writeAt (buf : Bytes) (off : Nat) (src : Bytes) : Option Bytes :=
  if off + src.length ≤ buf.length then
    some (buf.take off ++ src ++ buf.drop (off + src.length))
  else none

/-- The loop `for (i = 0; i < n; i++) dst[i] = a[i] ^ b[i]`: the `n` bytes it
stores (a read past the end of `a` or `b` is modelled as reading zero). -/
def xor_loop (n : Nat) (a b : Bytes) : Bytes :=
  (List.range n).map (fun i => a.getD i 0 ^^^ b.getD i 0)

/-- The library the two functions are linked against: types, constants and
(deterministic) routines. -/
structure Crypto where
  EC_GROUP : Type
  EC_POINT : Type
  EC_KEY : Type
  EVP_MD : Type
  EVP_CIPHER : Type
  EVP_CIPHER_CTX : Type
  EVP_MAX_BLOCK_LENGTH : Nat
  EVP_MAX_IV_LENGTH : Nat
  EC_KEY_get0_group : EC_KEY → EC_GROUP
  EC_KEY_get0_public_key : EC_KEY → EC_POINT
  /-- Call `EC_KEY_set_group(key, group)`; `none` is a zero return. -/
  EC_KEY_set_group : EC_KEY → EC_GROUP → Option EC_KEY
  /-- Call `EC_POINT_point2oct(group, point, COMPRESSED, NULL, 0, NULL)`: the
  size of the encoding (zero on error). -/
  EC_POINT_point2oct_size : EC_GROUP → EC_POINT → Nat
  /-- Call `EC_POINT_point2oct(group, point, COMPRESSED, buf, len, NULL)`: the
  return value and the contents of the `len` bytes at `buf` after the call. -/
  EC_POINT_point2oct : EC_GROUP → EC_POINT → Int → Nat × Bytes
  /-- Call `EC_POINT_oct2point(group, p, data, len, NULL)` on the `len` bytes
  at `data`; `none` is a zero return. -/
  EC_POINT_oct2point : EC_GROUP → Bytes → Option EC_POINT
  EVP_CIPHER_key_length : EVP_CIPHER → Int
  EVP_MD_size : EVP_MD → Int
  /-- Call `ECDH_compute_key(out, outlen, pub, key, KDF_get_x9_63(md))`: the
  return value and the contents of the buffer `out` after the call. -/
  ECDH_compute_key : Nat → EC_POINT → EC_KEY → EVP_MD → Int × Bytes
  /-- Cipher routines: `none` is a zero return; `Init` gets the key bytes the
  cipher reads at `key` and the `iv`; `Update` and `Final` give the bytes
  stored at `out`, whose number they store in `outl`. -/
  EVP_EncryptInit : EVP_CIPHER → Bytes → Bytes → Option EVP_CIPHER_CTX
  EVP_EncryptUpdate : EVP_CIPHER_CTX → Bytes → Option (EVP_CIPHER_CTX × Bytes)
  EVP_EncryptFinal : EVP_CIPHER_CTX → Option Bytes
  EVP_DecryptInit : EVP_CIPHER → Bytes → Bytes → Option EVP_CIPHER_CTX
  EVP_DecryptUpdate : EVP_CIPHER_CTX → Bytes → Option (EVP_CIPHER_CTX × Bytes)
  EVP_DecryptFinal : EVP_CIPHER_CTX → Option Bytes
  /-- Call `HMAC(md, key, key_len, d, n, out, &len)` with the `key_len` bytes
  at `key` and the `n` bytes at `d`: the `len` bytes stored at `out`; `none`
  is a NULL return. -/
  HMAC : EVP_MD → Bytes → Bytes → Option Bytes

/-- What one call meets at run time. -/
structure Env (L : Crypto) where
  /-- Whether `ECIES_CIPHERTEXT_VALUE_new()` returns non-NULL. -/
  ECIES_CIPHERTEXT_VALUE_new : Bool
  /-- Call `EC_KEY_new()`; `none` is NULL. -/
  EC_KEY_new : Option L.EC_KEY
  /-- Call `EC_KEY_generate_key(key)`: the key with a fresh key pair; `none` is a
  zero return. -/
  EC_KEY_generate_key : L.EC_KEY → Option L.EC_KEY
  /-- Whether `EC_POINT_new(group)` returns non-NULL. -/
  EC_POINT_new : L.EC_GROUP → Bool
  /-- Whether `OPENSSL_malloc(n)` returns non-NULL. -/
  OPENSSL_malloc : Int → Bool
  /-- Whether `M_ASN1_OCTET_STRING_set(s, NULL, len)` returns non-zero. -/
  M_ASN1_OCTET_STRING_set : Int → Bool

/-- An `ASN1_OCTET_STRING`: the `length` field and the `data` pointer
(`none` is NULL). -/
structure ASN1_OCTET_STRING where
  length : Int
  data : Option Bytes
deriving DecidableEq

/-- An `ECIES_CIPHERTEXT_VALUE`; `none` is a NULL field. -/
structure ECIES_CIPHERTEXT_VALUE where
  ephem_point : Option ASN1_OCTET_STRING
  ciphertext : Option ASN1_OCTET_STRING
  mactag : Option ASN1_OCTET_STRING
deriving DecidableEq

structure ECIES_PARAMS (L : Crypto) where
  kdf_md : L.EVP_MD
  mac_md : L.EVP_MD
  sym_cipher : Option L.EVP_CIPHER

/-- Function codes given to `ECIESerr`. -/
inductive Func
  | ECIES_F_ECIES_DO_ENCRYPT
  | ECIES_F_ECIES_DO_DECRYPT
deriving DecidableEq

/-- Reason codes given to `ECIESerr`. -/
inductive Reason
  | ERR_R_MALLOC_FAILURE
  | ERR_R_EC_LIB
  | ERR_R_ASN1_LIB
  | ECIES_R_ECDH_FAILED
  | ECIES_R_ENCRYPT_FAILED
  | ECIES_R_DECRYPT_FAILED
  | ECIES_R_GEN_MAC_FAILED
  | ECIES_R_VERIFY_MAC_FAILED
  | ECIES_R_BAD_DATA
  | ECIES_R_BUFFER_TOO_SMALL
deriving DecidableEq

/-- The library calls and loops a run performs, with the arguments the claims
speak about. -/
inductive Call
  | EVP_CIPHER_CTX_init
  | ECIES_CIPHERTEXT_VALUE_new
  | EC_KEY_new
  | EC_KEY_set_group
  | EC_KEY_generate_key
  | EC_POINT_point2oct
  | M_ASN1_OCTET_STRING_set (len : Int)
  | OPENSSL_malloc (num : Int)
  | ECDH_compute_key (outlen : Nat)
  | EVP_EncryptInit (key : Bytes)
  | EVP_EncryptUpdate
  | EVP_EncryptFinal
  | HMAC (key : Bytes) (d : Bytes)
  | EC_POINT_new
  | EC_POINT_oct2point
  | EVP_DecryptInit (key : Bytes)
  | EVP_DecryptUpdate
  | EVP_DecryptFinal
  | xor_loop (n : Int)
  | OPENSSL_free (contents : Bytes)
  | EVP_CIPHER_CTX_cleanup
  | EC_KEY_free
  | EC_POINT_free
  | ECIES_CIPHERTEXT_VALUE_free
deriving DecidableEq

/-- The array `iv` after `memset(iv, 0, sizeof(iv))`. -/
def zero_iv (L : Crypto) : Bytes := List.replicate L.EVP_MAX_IV_LENGTH 0

/-! ## ECIES_do_encrypt -/

/-- The locals of `ECIES_do_encrypt` at the label `err`, with the error queue
and the calls made so far.  After the clean-up code, `cv` is the value the
function returns. -/
structure EncState (L : Crypto) where
  e : Int
  cv : Option ECIES_CIPHERTEXT_VALUE
  ephem_key : Option L.EC_KEY
  share : Option Bytes
  errs : List (Func × Reason)
  calls : List Call

/-- The statement pair `ECIESerr(ECIES_F_ECIES_DO_ENCRYPT, reason); goto err;`
(`e` is still 1). -/
def enc_err (L : Crypto) (cv : Option ECIES_CIPHERTEXT_VALUE)
    (ephem_key : Option L.EC_KEY) (share : Option Bytes) (calls : List Call)
    (reason : Reason) : Option (EncState L) :=
  some { e := 1, cv := cv, ephem_key := ephem_key, share := share,
         errs := [(Func.ECIES_F_ECIES_DO_ENCRYPT, reason)], calls := calls }

/-- Encryption key length of `ECIES_do_encrypt` (lines 67-69). -/
def enc_enckeylen (L : Crypto) (param : ECIES_PARAMS L) (inlen : Nat) : Int :=
  match param.sym_cipher with
  | some c => L.EVP_CIPHER_key_length c
  | none => toInt32 inlen

/-- Length of the derived key material in `ECIES_do_encrypt` (lines 70-71):
`sharelen = enckeylen + mackeylen` in `int` arithmetic. -/
def enc_sharelen (L : Crypto) (param : ECIES_PARAMS L) (inlen : Nat) : Int :=
  toInt32 (enc_enckeylen L param inlen + L.EVP_MD_size param.mac_md)

/-- Size requested for the ciphertext buffer in `ECIES_do_encrypt`
(lines 92-94). -/
def enc_ctlen (L : Crypto) (param : ECIES_PARAMS L) (inlen : Nat) : Int :=
  match param.sym_cipher with
  | some _ => toInt32 ((inlen + L.EVP_MAX_BLOCK_LENGTH * 2 : Nat) : Int)
  | none => toInt32 inlen

/-- Lines 138-156 of `ECIES_do_encrypt`: the MAC tag over the finished
ciphertext `ct`.  `cv` holds the ephemeral point already.  The bytes `HMAC`
stores are the contents of the fresh tag buffer. -/
def enc_mactag (L : Crypto) (E : Env L) (param : ECIES_PARAMS L)
    (cv : ECIES_CIPHERTEXT_VALUE) (ephem_key : L.EC_KEY) (share : Bytes)
    (mackey : Bytes) (mackeylen : Int) (ct : ASN1_OCTET_STRING)
    (calls : List Call) : Option (EncState L) :=
  -- cv->mactag->length = EVP_MD_size(param->mac_md);
  let cv1 : ECIES_CIPHERTEXT_VALUE :=
    { cv with ciphertext := some ct,
              mactag := some ⟨L.EVP_MD_size param.mac_md, none⟩ }
  let c1 := calls ++ [Call.M_ASN1_OCTET_STRING_set (L.EVP_MD_size param.mac_md)]
  if E.M_ASN1_OCTET_STRING_set (L.EVP_MD_size param.mac_md) = false then
    enc_err L (some cv1) (some ephem_key) (some share) c1 Reason.ERR_R_MALLOC_FAILURE
  else
  let key := mackey.take mackeylen.toNat
  let d := (ct.data.getD []).take (toSizeT ct.length)
  let c2 := c1 ++ [Call.HMAC key d]
  match L.HMAC param.mac_md key d with
  | none =>
    enc_err L (some cv1) (some ephem_key) (some share) c2 Reason.ECIES_R_GEN_MAC_FAILED
  | some mac =>
    some { e := 0,
           cv := some { cv1 with
             mactag := some ⟨L.EVP_MD_size param.mac_md, some mac⟩ },
           ephem_key := some ephem_key, share := some share,
           errs := [], calls := c2 }

/-- Lines 89-136 of `ECIES_do_encrypt`, followed by `enc_mactag`: allocate the
ciphertext buffer and fill it, with the cipher or with the xor loop. -/
def enc_payload (L : Crypto) (E : Env L) (param : ECIES_PARAMS L) (inp : Bytes)
    (cv : ECIES_CIPHERTEXT_VALUE) (ephem_key : L.EC_KEY) (share : Bytes)
    (enckeylen mackeylen : Int) (calls : List Call) : Option (EncState L) :=
  let inlen := inp.length
  let enckey := share
  let mackey := share.drop enckeylen.toNat
  let len := enc_ctlen L param inlen
  let c1 := calls ++ [Call.M_ASN1_OCTET_STRING_set len]
  if E.M_ASN1_OCTET_STRING_set len = false then
    enc_err L (some cv) (some ephem_key) (some share) c1 Reason.ERR_R_MALLOC_FAILURE
  else
  let data0 := alloc len
  match param.sym_cipher with
  | some c =>
    let iv := zero_iv L
    let key := enckey.take (L.EVP_CIPHER_key_length c).toNat
    let c2 := c1 ++ [Call.EVP_EncryptInit key]
    match L.EVP_EncryptInit c key iv with
    | none =>
      enc_err L (some cv) (some ephem_key) (some share) c2 Reason.ECIES_R_ENCRYPT_FAILED
    | some ctx =>
    let c3 := c2 ++ [Call.EVP_EncryptUpdate]
    match L.EVP_EncryptUpdate ctx (inp.take (toInt32 inlen).toNat) with
    | none =>
      enc_err L (some cv) (some ephem_key) (some share) c3 Reason.ECIES_R_ENCRYPT_FAILED
    | some (ctx1, o1) =>
    match writeAt data0 0 o1 with
    | none => none
    | some data1 =>
    let c4 := c3 ++ [Call.EVP_EncryptFinal]
    match L.EVP_EncryptFinal ctx1 with
    | none =>
      enc_err L (some cv) (some ephem_key) (some share) c4 Reason.ECIES_R_ENCRYPT_FAILED
    | some o2 =>
    match writeAt data1 o1.length o2 with
    | none => none
    | some data2 =>
    -- cv->ciphertext->length = (int)(p - cv->ciphertext->data);
    let ct : ASN1_OCTET_STRING :=
      ⟨toInt32 ((o1.length + o2.length : Nat) : Int), some data2⟩
    enc_mactag L E param cv ephem_key share mackey mackeylen ct c4
  | none =>
    let data1 := xor_loop len.toNat inp enckey
    let ct : ASN1_OCTET_STRING := ⟨len, some data1⟩
    enc_mactag L E param cv ephem_key share mackey mackeylen ct
      (c1 ++ [Call.xor_loop len])

/-- Lines 14-156 of `ECIES_do_encrypt`: the function up to the label `err`.
The plaintext is `inp` and `inlen` is its length. -/
def ECIES_do_encrypt_body (L : Crypto) (E : Env L) (param : ECIES_PARAMS L)
    (inp : Bytes) (pub_key : L.EC_KEY) : Option (EncState L) :=
  let inlen := inp.length
  let c0 := [Call.EVP_CIPHER_CTX_init, Call.ECIES_CIPHERTEXT_VALUE_new]
  if E.ECIES_CIPHERTEXT_VALUE_new = false then
    enc_err L none none none c0 Reason.ERR_R_MALLOC_FAILURE
  else
  -- a new value has its three octet strings allocated and empty
  let cv0 : ECIES_CIPHERTEXT_VALUE :=
    { ephem_point := some ⟨0, none⟩, ciphertext := some ⟨0, none⟩,
      mactag := some ⟨0, none⟩ }
  let c1 := c0 ++ [Call.EC_KEY_new]
  match E.EC_KEY_new with
  | none => enc_err L (some cv0) none none c1 Reason.ERR_R_MALLOC_FAILURE
  | some k0 =>
  let c2 := c1 ++ [Call.EC_KEY_set_group]
  match L.EC_KEY_set_group k0 (L.EC_KEY_get0_group pub_key) with
  | none => enc_err L (some cv0) (some k0) none c2 Reason.ERR_R_EC_LIB
  | some k1 =>
  let c3 := c2 ++ [Call.EC_KEY_generate_key]
  match E.EC_KEY_generate_key k1 with
  | none => enc_err L (some cv0) (some k1) none c3 Reason.ERR_R_EC_LIB
  | some ephem_key =>
  let group := L.EC_KEY_get0_group ephem_key
  let point := L.EC_KEY_get0_public_key ephem_key
  let len := toInt32 (L.EC_POINT_point2oct_size group point)
  let c4 := c3 ++ [Call.EC_POINT_point2oct, Call.M_ASN1_OCTET_STRING_set len]
  if E.M_ASN1_OCTET_STRING_set len = false then
    enc_err L (some cv0) (some ephem_key) none c4 Reason.ERR_R_ASN1_LIB
  else
  let enc := L.EC_POINT_point2oct group point len
  let cv1 := { cv0 with ephem_point := some ⟨len, some enc.2⟩ }
  let c5 := c4 ++ [Call.EC_POINT_point2oct]
  if enc.1 ≤ 0 then
    enc_err L (some cv1) (some ephem_key) none c5 Reason.ERR_R_EC_LIB
  else
  let enckeylen := enc_enckeylen L param inlen
  let mackeylen := L.EVP_MD_size param.mac_md
  let sharelen := enc_sharelen L param inlen
  let c6 := c5 ++ [Call.OPENSSL_malloc sharelen]
  if E.OPENSSL_malloc sharelen = false then
    enc_err L (some cv1) (some ephem_key) none c6 Reason.ERR_R_MALLOC_FAILURE
  else
  let c7 := c6 ++ [Call.ECDH_compute_key (toSizeT sharelen)]
  let kd := L.ECDH_compute_key (toSizeT sharelen)
    (L.EC_KEY_get0_public_key pub_key) ephem_key param.kdf_md
  if kd.1 = 0 then
    enc_err L (some cv1) (some ephem_key) (some kd.2) c7 Reason.ECIES_R_ECDH_FAILED
  else
  enc_payload L E param inp cv1 ephem_key kd.2 enckeylen mackeylen c7

/-- Lines 157-166 of `ECIES_do_encrypt`: the code after the label `err`. -/
def enc_cleanup {L : Crypto} (s : EncState L) : EncState L :=
  { s with
    cv := if s.e ≠ 0 then none else s.cv
    calls := s.calls ++ [Call.EVP_CIPHER_CTX_cleanup]
      ++ (match s.share with
          | some b => [Call.OPENSSL_free b]
          | none => [])
      ++ (match s.ephem_key with
          | some _ => [Call.EC_KEY_free]
          | none => [])
      ++ (if s.e ≠ 0 ∧ s.cv.isSome then [Call.ECIES_CIPHERTEXT_VALUE_free]
          else []) }

/-- The function `ECIES_do_encrypt(param, in, inlen, pub_key)`: the returned
pointer is `cv` of the final state (`none` is NULL). -/
def ECIES_do_encrypt (L : Crypto) (E : Env L) (param : ECIES_PARAMS L)
    (inp : Bytes) (pub_key : L.EC_KEY) : Option (EncState L) :=
  (ECIES_do_encrypt_body L E param inp pub_key).map enc_cleanup

/-! ## ECIES_do_decrypt -/

/-- The locals of `ECIES_do_decrypt` at the label `err`, the caller's memory
(`out`: the contents of the buffer, `none` for a NULL pointer; `outlen`: the
value of `*outlen`), the error queue and the calls made so far.
`ephem_point` tells whether the local pointer of that name is non-NULL. -/
structure DecState where
  r : Int
  out : Option Bytes
  outlen : Nat
  share : Option Bytes
  ephem_point : Bool
  errs : List (Func × Reason)
  calls : List Call
deriving DecidableEq

/-- The statement pair `ECIESerr(func, reason); goto err;` of
`ECIES_do_decrypt` (`r` is still 0), with the caller's memory as it is at
that point. -/
def dec_err (buf : Bytes) (outlen : Nat) (share : Option Bytes)
    (ephem_point : Bool) (calls : List Call) (func : Func) (reason : Reason) :
    Option DecState :=
  some { r := 0, out := some buf, outlen := outlen, share := share,
         ephem_point := ephem_point, errs := [(func, reason)], calls := calls }

/-- Encryption key length of `ECIES_do_decrypt` (lines 222-224). -/
def dec_enckeylen (L : Crypto) (param : ECIES_PARAMS L)
    (ct : ASN1_OCTET_STRING) : Int :=
  match param.sym_cipher with
  | some c => L.EVP_CIPHER_key_length c
  | none => ct.length

/-- Lines 270-306 of `ECIES_do_decrypt`: decrypt the ciphertext `ct` into the
caller's buffer `buf`, with the cipher or with the xor loop.  A cipher call
that returns zero is taken to have stored nothing. -/
def dec_payload (L : Crypto) (param : ECIES_PARAMS L) (ct : ASN1_OCTET_STRING)
    (buf : Bytes) (outlen : Nat) (share : Bytes) (enckey : Bytes)
    (calls : List Call) : Option DecState :=
  let data := ct.data.getD []
  match param.sym_cipher with
  | some c =>
    let iv := zero_iv L
    let key := enckey.take (L.EVP_CIPHER_key_length c).toNat
    let c1 := calls ++ [Call.EVP_DecryptInit key]
    match L.EVP_DecryptInit c key iv with
    | none =>
      dec_err buf outlen (some share) true c1
        Func.ECIES_F_ECIES_DO_DECRYPT Reason.ECIES_R_DECRYPT_FAILED
    | some ctx =>
    let c2 := c1 ++ [Call.EVP_DecryptUpdate]
    match L.EVP_DecryptUpdate ctx (data.take ct.length.toNat) with
    | none =>
      dec_err buf outlen (some share) true c2
        Func.ECIES_F_ECIES_DO_DECRYPT Reason.ECIES_R_DECRYPT_FAILED
    | some (ctx1, p1) =>
    match writeAt buf 0 p1 with
    | none => none
    | some buf1 =>
    let c3 := c2 ++ [Call.EVP_DecryptFinal]
    match L.EVP_DecryptFinal ctx1 with
    | none =>
      dec_err buf1 outlen (some share) true c3
        Func.ECIES_F_ECIES_DO_DECRYPT Reason.ECIES_R_DECRYPT_FAILED
    | some p2 =>
    match writeAt buf1 p1.length p2 with
    | none => none
    | some buf2 =>
    -- *outlen = (int)(p - out);
    some { r := 1, out := some buf2,
           outlen := toSizeT (toInt32 ((p1.length + p2.length : Nat) : Int)),
           share := some share, ephem_point := true, errs := [], calls := c3 }
  | none =>
    match writeAt buf 0 (xor_loop ct.length.toNat data enckey) with
    | none => none
    | some buf1 =>
    some { r := 1, out := some buf1, outlen := toSizeT ct.length,
           share := some share, ephem_point := true, errs := [],
           calls := calls ++ [Call.xor_loop ct.length] }

/-- The reads `ECIES_do_decrypt` makes from line 252 on stay inside their
buffers: the MAC key is read at `share + enckeylen` (line 242), which is
inside `share` only for `enckeylen` not negative, and `HMAC`, the cipher and
the xor loop read `cv->ciphertext->length` bytes at `cv->ciphertext->data`
(`(size_t)length` bytes for `HMAC`), which the data must have. -/
def dec_reads_defined (enckeylen : Int) (ct : ASN1_OCTET_STRING) : Bool :=
  decide (0 ≤ enckeylen) && decide (0 ≤ ct.length) &&
    decide (ct.length.toNat ≤ (ct.data.getD []).length)

/-- Lines 244-268 of `ECIES_do_decrypt`, followed by `dec_payload`: recompute
the MAC over the ciphertext and compare it with `cv->mactag`.  A read outside
a buffer is undefined behaviour (`none`). -/
def dec_verify (L : Crypto) (param : ECIES_PARAMS L)
    (cv : ECIES_CIPHERTEXT_VALUE) (ct : ASN1_OCTET_STRING) (buf : Bytes)
    (outlen : Nat) (share : Bytes) (enckeylen mackeylen : Int)
    (calls : List Call) : Option DecState :=
  let enckey := share
  let mackey := share.drop enckeylen.toNat
  match cv.mactag with
  | none =>
    dec_err buf outlen (some share) true calls
      Func.ECIES_F_ECIES_DO_DECRYPT Reason.ECIES_R_BAD_DATA
  | some tag =>
  match tag.data with
  | none =>
    dec_err buf outlen (some share) true calls
      Func.ECIES_F_ECIES_DO_DECRYPT Reason.ECIES_R_BAD_DATA
  | some tagdata =>
  -- HMAC(param->mac_md, mackey, mackeylen, cv->ciphertext->data, (size_t)length, ...)
  if dec_reads_defined enckeylen ct = false then none else
  let key := mackey.take mackeylen.toNat
  let d := (ct.data.getD []).take (toSizeT ct.length)
  let c1 := calls ++ [Call.HMAC key d]
  match L.HMAC param.mac_md key d with
  | none =>
    dec_err buf outlen (some share) true c1
      Func.ECIES_F_ECIES_DO_DECRYPT Reason.ECIES_R_GEN_MAC_FAILED
  | some mac =>
  let len : Int := mac.length
  if len ≠ tag.length then
    dec_err buf outlen (some share) true c1
      Func.ECIES_F_ECIES_DO_DECRYPT Reason.ECIES_R_VERIFY_MAC_FAILED
  else
  -- memcmp(cv->mactag->data, mac, len)
  if tagdata.take len.toNat ≠ mac.take len.toNat then
    dec_err buf outlen (some share) true c1
      Func.ECIES_F_ECIES_DO_DECRYPT Reason.ECIES_R_VERIFY_MAC_FAILED
  else
  dec_payload L param ct buf outlen share enckey c1

/-- Lines 173-306 of `ECIES_do_decrypt`: the function up to the label `err`.
`out` is the caller's buffer (`none` for a NULL pointer) and `outlen` the
value of `*outlen` on entry. -/
def ECIES_do_decrypt_body (L : Crypto) (E : Env L) (cv : ECIES_CIPHERTEXT_VALUE)
    (param : ECIES_PARAMS L) (out : Option Bytes) (outlen : Nat)
    (pri_key : L.EC_KEY) : Option DecState :=
  let c0 := [Call.EVP_CIPHER_CTX_init]
  match out with
  | none =>
    match cv.ciphertext with
    | none => none
    | some ct =>
      -- *outlen = cv->ciphertext->length; r = 1;
      some { r := 1, out := none, outlen := toSizeT ct.length, share := none,
             ephem_point := false, errs := [], calls := c0 }
  | some buf =>
  match cv.ciphertext with
  | none => none
  | some ct =>
  if toInt32 outlen < ct.length then
    dec_err buf (toSizeT ct.length) none false c0
      Func.ECIES_F_ECIES_DO_DECRYPT Reason.ECIES_R_BUFFER_TOO_SMALL
  else
  match cv.ephem_point with
  | none =>
    dec_err buf outlen none false c0
      Func.ECIES_F_ECIES_DO_DECRYPT Reason.ECIES_R_BAD_DATA
  | some ep =>
  match ep.data with
  | none =>
    dec_err buf outlen none false c0
      Func.ECIES_F_ECIES_DO_DECRYPT Reason.ECIES_R_BAD_DATA
  | some epdata =>
  let group := L.EC_KEY_get0_group pri_key
  let c1 := c0 ++ [Call.EC_POINT_new]
  if E.EC_POINT_new group = false then
    dec_err buf outlen none false c1
      Func.ECIES_F_ECIES_DO_ENCRYPT Reason.ERR_R_MALLOC_FAILURE
  else
  let c2 := c1 ++ [Call.EC_POINT_oct2point]
  match L.EC_POINT_oct2point group (epdata.take (toSizeT ep.length)) with
  | none =>
    dec_err buf outlen none true c2
      Func.ECIES_F_ECIES_DO_DECRYPT Reason.ECIES_R_BAD_DATA
  | some ephem_point =>
  let enckeylen := dec_enckeylen L param ct
  let mackeylen := L.EVP_MD_size param.mac_md
  let sharelen := toInt32 (enckeylen + mackeylen)
  let c3 := c2 ++ [Call.OPENSSL_malloc sharelen]
  if E.OPENSSL_malloc sharelen = false then
    dec_err buf outlen none true c3
      Func.ECIES_F_ECIES_DO_DECRYPT Reason.ERR_R_MALLOC_FAILURE
  else
  let c4 := c3 ++ [Call.ECDH_compute_key (toSizeT (toInt32 (enckeylen + mackeylen)))]
  let kd := L.ECDH_compute_key (toSizeT (toInt32 (enckeylen + mackeylen)))
    ephem_point pri_key param.kdf_md
  if kd.1 = 0 then
    dec_err buf outlen (some kd.2) true c4
      Func.ECIES_F_ECIES_DO_DECRYPT Reason.ECIES_R_ECDH_FAILED
  else
  dec_verify L param cv ct buf outlen kd.2 enckeylen mackeylen c4

/-- Lines 307-312 of `ECIES_do_decrypt`: the code after the label `err`. -/
def dec_cleanup (s : DecState) : DecState :=
  { s with
    calls := s.calls
      ++ (match s.share with
          | some b => [Call.OPENSSL_free b]
          | none => [])
      ++ [Call.EVP_CIPHER_CTX_cleanup]
      ++ (if s.ephem_point then [Call.EC_POINT_free] else []) }

/-- The function `ECIES_do_decrypt(cv, param, out, outlen, pri_key)`: the
return value is `r` of the final state. -/
def ECIES_do_decrypt (L : Crypto) (E : Env L) (cv : ECIES_CIPHERTEXT_VALUE)
    (param : ECIES_PARAMS L) (out : Option Bytes) (outlen : Nat)
    (pri_key : L.EC_KEY) : Option DecState :=
  (ECIES_do_decrypt_body L E cv param out outlen pri_key).map dec_cleanup

/-! ## A small instance of the library

A toy group (the integers modulo 101 under addition, generator 7), a toy KDF,
a toy stream cipher and a toy two-byte MAC, on which the functions can be
evaluated. -/

/-- Exclusive-or of all the bytes of a string. -/
def xor_fold (bs : Bytes) : Byte := bs.foldl (fun a b => a ^^^ b) 0

/-- The toy library.  A key is its private scalar; the public point of the
key `d` is `7 * d mod 101`. -/
def toy : Crypto where
  EC_GROUP := Unit
  EC_POINT := Nat
  EC_KEY := Nat
  EVP_MD := Unit
  EVP_CIPHER := Unit
  EVP_CIPHER_CTX := Byte
  EVP_MAX_BLOCK_LENGTH := 32
  EVP_MAX_IV_LENGTH := 16
  EC_KEY_get0_group := fun _ => ()
  EC_KEY_get0_public_key := fun d => 7 * d % 101
  EC_KEY_set_group := fun k _ => some k
  EC_POINT_point2oct_size := fun _ _ => 1
  EC_POINT_point2oct := fun _ p len =>
    if len < 1 then (0, []) else (1, [BitVec.ofNat 8 p])
  EC_POINT_oct2point := fun _ bs =>
    match bs with
    | [b] => if b.toNat < 101 then some b.toNat else none
    | _ => none
  EVP_CIPHER_key_length := fun _ => 1
  EVP_MD_size := fun _ => 2
  ECDH_compute_key := fun n p d _ =>
    ((n : Int), (List.range n).map (fun i => BitVec.ofNat 8 (p * d % 101 + 3 * i)))
  EVP_EncryptInit := fun _ key _ =>
    match key with
    | [k] => some k
    | _ => none
  EVP_EncryptUpdate := fun k bs => some (k, bs.map (fun b => b ^^^ k))
  EVP_EncryptFinal := fun _ => some []
  EVP_DecryptInit := fun _ key _ =>
    match key with
    | [k] => some k
    | _ => none
  EVP_DecryptUpdate := fun k bs => some (k, bs.map (fun b => b ^^^ k))
  EVP_DecryptFinal := fun _ => some []
  HMAC := fun _ key d =>
    some [xor_fold (key ++ d), BitVec.ofNat 8 (key.length + d.length)]

/-- A run in which every allocation of a positive size succeeds and the
ephemeral key generated has the private scalar 5. -/
def toyEnv : Env toy where
  ECIES_CIPHERTEXT_VALUE_new := true
  EC_KEY_new := some (0 : Nat)
  EC_KEY_generate_key := fun _ => some (5 : Nat)
  EC_POINT_new := fun _ => true
  OPENSSL_malloc := fun n => decide (0 < n)
  M_ASN1_OCTET_STRING_set := fun len => decide (0 ≤ len)

/-- Parameters without a symmetric cipher (xor mode). -/
def toyXor : ECIES_PARAMS toy := { kdf_md := (), mac_md := (), sym_cipher := none }

/-- Parameters with the toy stream cipher. -/
def toyCipher : ECIES_PARAMS toy := { kdf_md := (), mac_md := (), sym_cipher := some () }

/-- The recipient key of the examples: private scalar 11, public point 77. -/
def toyKey : toy.EC_KEY := (11 : Nat)

/-- The two bytes of the text "hi". -/
def hi : Bytes := [0x68, 0x69]

/-- The ciphertext of the xor-mode envelope for "hi". -/
def ctHi : ASN1_OCTET_STRING := ⟨2, some [0x3a, 0x3c]⟩

/-- The envelope `ECIES_do_encrypt` returns for "hi" in xor mode, in the run
`toyEnv`, for the recipient `toyKey`. -/
def cvHi : ECIES_CIPHERTEXT_VALUE :=
  { ephem_point := some ⟨1, some [0x23]⟩, ciphertext := some ctHi,
    mactag := some ⟨2, some [0x05, 0x04]⟩ }

/-- The envelope `cvHi` with an ephemeral point field that does not decode
(255 is not an element of the toy group). -/
def cvBadPoint : ECIES_CIPHERTEXT_VALUE :=
  { cvHi with ephem_point := some ⟨1, some [0xff]⟩ }

/-- The state in which `ECIES_do_encrypt` returns `cvHi`. -/
def encHi : EncState toy :=
  { e := 0, cv := some cvHi, ephem_key := some (5 : Nat),
    share := some [0x52, 0x55, 0x58, 0x5b], errs := [],
    calls := [.EVP_CIPHER_CTX_init, .ECIES_CIPHERTEXT_VALUE_new, .EC_KEY_new,
      .EC_KEY_set_group, .EC_KEY_generate_key, .EC_POINT_point2oct,
      .M_ASN1_OCTET_STRING_set 1, .EC_POINT_point2oct, .OPENSSL_malloc 4,
      .ECDH_compute_key 4, .M_ASN1_OCTET_STRING_set 2, .xor_loop 2,
      .M_ASN1_OCTET_STRING_set 2, .HMAC [0x58, 0x5b] [0x3a, 0x3c],
      .EVP_CIPHER_CTX_cleanup, .OPENSSL_free [0x52, 0x55, 0x58, 0x5b],
      .EC_KEY_free] }

/-- The state in which `ECIES_do_decrypt` accepts `cvHi` with a two-byte
buffer. -/
def decHi : DecState :=
  { r := 1, out := some [0x68, 0x69], outlen := 2,
    share := some [0x52, 0x55, 0x58, 0x5b], ephem_point := true, errs := [],
    calls := [.EVP_CIPHER_CTX_init, .EC_POINT_new, .EC_POINT_oct2point,
      .OPENSSL_malloc 4, .ECDH_compute_key 4, .HMAC [0x58, 0x5b] [0x3a, 0x3c],
      .xor_loop 2, .OPENSSL_free [0x52, 0x55, 0x58, 0x5b],
      .EVP_CIPHER_CTX_cleanup, .EC_POINT_free] }

/-- The envelope `ECIES_do_encrypt` returns for "hi" in cipher mode (the
ciphertext buffer has 2 + 64 bytes, of which the length field covers two). -/
def cvHiCipher : ECIES_CIPHERTEXT_VALUE :=
  { ephem_point := some ⟨1, some [0x23]⟩,
    ciphertext := some ⟨2, some ([0x3a, 0x3b] ++ List.replicate 64 0)⟩,
    mactag := some ⟨2, some [0x0c, 0x04]⟩ }

/-- A plaintext of 2^32 + 1 bytes. -/
def bigPlain : Bytes := List.replicate 4294967297 0x61

/-- The envelope `ECIES_do_encrypt` returns in cipher mode for the one-byte
plaintext 0x61 (the ciphertext buffer has 1 + 64 bytes, of which the length
field covers the first). -/
def cvOne : ECIES_CIPHERTEXT_VALUE :=
  { ephem_point := some ⟨1, some [0x23]⟩,
    ciphertext := some ⟨1, some ([0x33] ++ List.replicate 64 0)⟩,
    mactag := some ⟨2, some [0x3e, 0x03]⟩ }

/-- The toy library with a MAC of 32 bytes (a 256-bit hash). -/
def toy32 : Crypto :=
  { toy with
    EVP_MD_size := fun _ => 32
    HMAC := fun _ key d =>
      some (xor_fold (key ++ d) :: BitVec.ofNat 8 (key.length + d.length) ::
        List.replicate 30 0) }

/-- The run `toyEnv` for the library `toy32`. -/
def toyEnv32 : Env toy32 where
  ECIES_CIPHERTEXT_VALUE_new := true
  EC_KEY_new := some (0 : Nat)
  EC_KEY_generate_key := fun _ => some (5 : Nat)
  EC_POINT_new := fun _ => true
  OPENSSL_malloc := fun n => decide (0 < n)
  M_ASN1_OCTET_STRING_set := fun len => decide (0 ≤ len)

/-- Parameters without a symmetric cipher (xor mode) for `toy32`. -/
def toyXor32 : ECIES_PARAMS toy32 := { kdf_md := (), mac_md := (), sym_cipher := none }

/-- The envelope `cvHi` without its ciphertext field (a NULL pointer). -/
def cvNoCiphertext : ECIES_CIPHERTEXT_VALUE := { cvHi with ciphertext := none }

/-- The envelope `cvHi` without its tag field. -/
def cvNoTag : ECIES_CIPHERTEXT_VALUE := { cvHi with mactag := none }

/-- The toy library with a cipher that pads: encryption appends one byte,
the encryption of 0x01; `EVP_DecryptUpdate` holds the last byte back, and
`EVP_DecryptFinal` returns zero unless the byte held back decrypts to 0x01. -/
def toyPad : Crypto :=
  { toy with
    EVP_EncryptFinal := fun (k : Byte) => some [k ^^^ 0x01]
    EVP_DecryptUpdate := fun (k : Byte) bs =>
      match bs.reverse with
      | [] => some (k, [])
      | last :: rest => some (last ^^^ k, rest.reverse.map (fun b => b ^^^ k))
    EVP_DecryptFinal := fun (st : Byte) => if st = 0x01 then some [] else none }

/-- The run `toyEnv` for the library `toyPad`. -/
def toyEnvPad : Env toyPad where
  ECIES_CIPHERTEXT_VALUE_new := true
  EC_KEY_new := some (0 : Nat)
  EC_KEY_generate_key := fun _ => some (5 : Nat)
  EC_POINT_new := fun _ => true
  OPENSSL_malloc := fun n => decide (0 < n)
  M_ASN1_OCTET_STRING_set := fun len => decide (0 ≤ len)

/-- Parameters with the padding cipher of `toyPad`. -/
def toyCipherPad : ECIES_PARAMS toyPad :=
  { kdf_md := (), mac_md := (), sym_cipher := some () }

/-! ## Notions the claims are stated with -/

/-- Calls that decrypt: the cipher calls and the xor loop. -/
def Call.isDecryption : Call → Bool
  | .EVP_DecryptInit _ => true
  | .EVP_DecryptUpdate => true
  | .EVP_DecryptFinal => true
  | .xor_loop _ => true
  | _ => false

/-- Calls that perform the key agreement (ECDH followed by the KDF) or
allocate the buffer for it. -/
def Call.isKeyAgreement : Call → Bool
  | .ECDH_compute_key _ => true
  | .OPENSSL_malloc _ => true
  | _ => false

/-- Calls that compute a MAC. -/
def Call.isMac : Call → Bool
  | .HMAC _ _ => true
  | _ => false

/-- The ephemeral point `ECIES_do_decrypt` decodes from the envelope
(lines 202-217), when the field is present and decodes. -/
def dec_point (L : Crypto) (cv : ECIES_CIPHERTEXT_VALUE) (pri_key : L.EC_KEY) :
    Option L.EC_POINT :=
  match cv.ephem_point with
  | none => none
  | some ep =>
    match ep.data with
    | none => none
    | some epdata =>
      L.EC_POINT_oct2point (L.EC_KEY_get0_group pri_key)
        (epdata.take (toSizeT ep.length))

/-- The key material `ECIES_do_decrypt` derives for the envelope
(lines 222-240), when the point decodes and the key agreement succeeds. -/
def dec_share (L : Crypto) (cv : ECIES_CIPHERTEXT_VALUE) (param : ECIES_PARAMS L)
    (pri_key : L.EC_KEY) : Option Bytes :=
  match cv.ciphertext, dec_point L cv pri_key with
  | some ct, some ephem_point =>
    let kd := L.ECDH_compute_key
      (toSizeT (toInt32 (dec_enckeylen L param ct + L.EVP_MD_size param.mac_md)))
      ephem_point pri_key param.kdf_md
    if kd.1 = 0 then none else some kd.2
  | _, _ => none

/-- The MAC key of `ECIES_do_decrypt` (line 242 and the key length given to
`HMAC`): the `mackeylen` bytes of the key material after the first
`enckeylen`. -/
def dec_mackey (L : Crypto) (cv : ECIES_CIPHERTEXT_VALUE) (param : ECIES_PARAMS L)
    (pri_key : L.EC_KEY) : Option Bytes :=
  match cv.ciphertext, dec_share L cv param pri_key with
  | some ct, some share =>
    some ((share.drop (dec_enckeylen L param ct).toNat).take
      (L.EVP_MD_size param.mac_md).toNat)
  | _, _ => none

/-- The bytes of an octet string: the first `length` bytes at `data`, with
`length` converted to `size_t`. -/
def ASN1_OCTET_STRING.bytes (s : ASN1_OCTET_STRING) : Bytes :=
  (s.data.getD []).take (toSizeT s.length)

/-- The MAC recomputed over the ciphertext of the envelope with the derived
MAC key. -/
def recomputed_mac (L : Crypto) (cv : ECIES_CIPHERTEXT_VALUE)
    (param : ECIES_PARAMS L) (pri_key : L.EC_KEY) : Option Bytes :=
  match cv.ciphertext, dec_mackey L cv param pri_key with
  | some ct, some key => L.HMAC param.mac_md key ct.bytes
  | _, _ => none

/-- The tag `tag` equals the MAC `mac` in length and in every byte. -/
def tag_equals (tag : ASN1_OCTET_STRING) (mac : Bytes) : Bool :=
  decide (tag.length = (mac.length : Int)) &&
    (match tag.data with
     | some d => decide (d.take mac.length = mac)
     | none => false)

/-- The tag of the envelope equals the recomputed MAC. -/
def mac_verifies (L : Crypto) (cv : ECIES_CIPHERTEXT_VALUE)
    (param : ECIES_PARAMS L) (pri_key : L.EC_KEY) : Bool :=
  match cv.mactag, recomputed_mac L cv param pri_key with
  | some tag, some mac => tag_equals tag mac
  | _, _ => false

/-- Flip bit `j` of byte `i` of a byte string. -/
def flip_bit (bs : Bytes) (i j : Nat) : Bytes :=
  bs.set i (bs.getD i 0 ^^^ BitVec.ofNat 8 (2 ^ j))

/-- The calls `ECIES_do_decrypt` has made when it has derived the key
material. -/
def dec_calls_derived (L : Crypto) (param : ECIES_PARAMS L)
    (ct : ASN1_OCTET_STRING) : List Call :=
  [Call.EVP_CIPHER_CTX_init, Call.EC_POINT_new, Call.EC_POINT_oct2point,
   Call.OPENSSL_malloc (toInt32 (dec_enckeylen L param ct + L.EVP_MD_size param.mac_md)),
   Call.ECDH_compute_key
     (toSizeT (toInt32 (dec_enckeylen L param ct + L.EVP_MD_size param.mac_md)))]

/-- The run of `ECIES_do_decrypt` passes the size test, decodes the point
`pt` and derives the key material `share`. -/
def dec_derives (L : Crypto) (E : Env L) (cv : ECIES_CIPHERTEXT_VALUE)
    (param : ECIES_PARAMS L) (outlen : Nat) (pri_key : L.EC_KEY)
    (ct : ASN1_OCTET_STRING) (share : Bytes) : Prop :=
  cv.ciphertext = some ct ∧ ¬ toInt32 outlen < ct.length ∧
  E.EC_POINT_new (L.EC_KEY_get0_group pri_key) = true ∧
  E.OPENSSL_malloc (toInt32 (dec_enckeylen L param ct + L.EVP_MD_size param.mac_md)) = true ∧
  dec_share L cv param pri_key = some share

/-- The size `ECIES_do_encrypt` finds for the encoding of the public point
of the ephemeral key (lines 48-50). -/
def enc_point_len (L : Crypto) (ek : L.EC_KEY) : Int :=
  toInt32 (L.EC_POINT_point2oct_size (L.EC_KEY_get0_group ek)
    (L.EC_KEY_get0_public_key ek))

/-- The `ephem_point` field `ECIES_do_encrypt` builds for the ephemeral key
`ek` (lines 48-62). -/
def enc_point (L : Crypto) (ek : L.EC_KEY) : ASN1_OCTET_STRING :=
  ⟨enc_point_len L ek,
   some (L.EC_POINT_point2oct (L.EC_KEY_get0_group ek)
     (L.EC_KEY_get0_public_key ek) (enc_point_len L ek)).2⟩

/-- The key material `ECIES_do_encrypt` derives with the ephemeral key `ek`
(lines 79-81). -/
def enc_share (L : Crypto) (param : ECIES_PARAMS L) (inp : Bytes)
    (pub_key ek : L.EC_KEY) : Bytes :=
  (L.ECDH_compute_key (toSizeT (enc_sharelen L param inp.length))
    (L.EC_KEY_get0_public_key pub_key) ek param.kdf_md).2

/-- The MAC key of `ECIES_do_encrypt` (line 87 and the key length given to
`HMAC`): the `mackeylen` bytes of the key material after the first
`enckeylen`. -/
def enc_mackey (L : Crypto) (param : ECIES_PARAMS L) (inp : Bytes)
    (pub_key ek : L.EC_KEY) : Bytes :=
  ((enc_share L param inp pub_key ek).drop (enc_enckeylen L param inp.length).toNat).take
    (L.EVP_MD_size param.mac_md).toNat

/-- The calls `ECIES_do_encrypt` has made when it has derived the key
material with the ephemeral key `ek`. -/
def enc_calls_derived (L : Crypto) (param : ECIES_PARAMS L) (inp : Bytes)
    (ek : L.EC_KEY) : List Call :=
  [Call.EVP_CIPHER_CTX_init, Call.ECIES_CIPHERTEXT_VALUE_new, Call.EC_KEY_new,
   Call.EC_KEY_set_group, Call.EC_KEY_generate_key, Call.EC_POINT_point2oct,
   Call.M_ASN1_OCTET_STRING_set (enc_point_len L ek), Call.EC_POINT_point2oct,
   Call.OPENSSL_malloc (enc_sharelen L param inp.length),
   Call.ECDH_compute_key (toSizeT (enc_sharelen L param inp.length))]

/-- The ciphertext field `ECIES_do_encrypt` builds from the key material
`share` (lines 102-136): the three cipher calls, or the xor loop.  It is
`none` when a cipher call returns zero (or stores past the end of the
buffer). -/
def enc_ciphertext (L : Crypto) (param : ECIES_PARAMS L) (inp share : Bytes) :
    Option ASN1_OCTET_STRING :=
  match param.sym_cipher with
  | none =>
    some ⟨enc_ctlen L param inp.length,
      some (xor_loop (enc_ctlen L param inp.length).toNat inp share)⟩
  | some c =>
    match L.EVP_EncryptInit c (share.take (L.EVP_CIPHER_key_length c).toNat) (zero_iv L) with
    | none => none
    | some ctx =>
    match L.EVP_EncryptUpdate ctx (inp.take (toInt32 inp.length).toNat) with
    | none => none
    | some (ctx1, o1) =>
    match writeAt (alloc (enc_ctlen L param inp.length)) 0 o1 with
    | none => none
    | some data1 =>
    match L.EVP_EncryptFinal ctx1 with
    | none => none
    | some o2 =>
    match writeAt data1 o1.length o2 with
    | none => none
    | some data2 => some ⟨toInt32 ((o1.length + o2.length : Nat) : Int), some data2⟩

/-- Every step of `ECIES_do_encrypt` succeeds, each step being tried when the
ones before it have succeeded: envelope allocation, ephemeral key
generation, point encoding, key agreement with the KDF, ciphertext
allocation, cipher init, update and final, MAC allocation, MAC computation.
Success of a step is what the code tests of it. -/
def enc_steps_succeed (L : Crypto) (E : Env L) (param : ECIES_PARAMS L)
    (inp : Bytes) (pub_key : L.EC_KEY) : Bool :=
  E.ECIES_CIPHERTEXT_VALUE_new &&
  (match E.EC_KEY_new with
   | none => false
   | some k0 =>
   match L.EC_KEY_set_group k0 (L.EC_KEY_get0_group pub_key) with
   | none => false
   | some k1 =>
   match E.EC_KEY_generate_key k1 with
   | none => false
   | some ek =>
     E.M_ASN1_OCTET_STRING_set (enc_point_len L ek) &&
     decide ((L.EC_POINT_point2oct (L.EC_KEY_get0_group ek)
       (L.EC_KEY_get0_public_key ek) (enc_point_len L ek)).1 ≠ 0) &&
     E.OPENSSL_malloc (enc_sharelen L param inp.length) &&
     decide ((L.ECDH_compute_key (toSizeT (enc_sharelen L param inp.length))
       (L.EC_KEY_get0_public_key pub_key) ek param.kdf_md).1 ≠ 0) &&
     E.M_ASN1_OCTET_STRING_set (enc_ctlen L param inp.length) &&
     (match enc_ciphertext L param inp (enc_share L param inp pub_key ek) with
      | none => false
      | some ct =>
        E.M_ASN1_OCTET_STRING_set (L.EVP_MD_size param.mac_md) &&
        (L.HMAC param.mac_md (enc_mackey L param inp pub_key ek) ct.bytes).isSome))

/-- The three fields of the envelope are populated: each is present and has
a non-NULL `data`. -/
def ECIES_CIPHERTEXT_VALUE.populated (cv : ECIES_CIPHERTEXT_VALUE) : Bool :=
  (match cv.ephem_point with
   | some p => p.data.isSome
   | none => false) &&
  (match cv.ciphertext with
   | some c => c.data.isSome
   | none => false) &&
  (match cv.mactag with
   | some t => t.data.isSome
   | none => false)

/-- The state in which `ECIES_do_decrypt` of the library `toyPad` returns for
the envelope `cvHiCipher` and a three-byte buffer of zeros: the tag verifies,
`EVP_DecryptUpdate` stores the byte 0x68 and `EVP_DecryptFinal` rejects the
padding. -/
def decPadFail : DecState :=
  { r := 0, out := some [0x68, 0, 0], outlen := 3,
    share := some [0x52, 0x55, 0x58], ephem_point := true,
    errs := [(Func.ECIES_F_ECIES_DO_DECRYPT, Reason.ECIES_R_DECRYPT_FAILED)],
    calls := [.EVP_CIPHER_CTX_init, .EC_POINT_new, .EC_POINT_oct2point,
      .OPENSSL_malloc 3, .ECDH_compute_key 3, .HMAC [0x55, 0x58] [0x3a, 0x3b],
      .EVP_DecryptInit [0x52], .EVP_DecryptUpdate, .EVP_DecryptFinal,
      .OPENSSL_free [0x52, 0x55, 0x58], .EVP_CIPHER_CTX_cleanup, .EC_POINT_free] }

/-- Every buffer the run releases with `OPENSSL_free` holds only zero bytes
when it is released. -/
def released_cleared (calls : List Call) : Bool :=
  calls.all (fun c =>
    match c with
    | .OPENSSL_free b => b.all (fun x => x == 0)
    | _ => true)

/-- The envelope `ECIES_do_encrypt` of the library `toyPad` returns for `hi`
and the recipient key 11: the two encrypted bytes and the encrypted padding
byte, in the buffer of the length the function asked for. -/
def cvHiPad : ECIES_CIPHERTEXT_VALUE :=
  { ephem_point := some ⟨1, some [0x23]⟩,
    ciphertext := some ⟨3, some ([0x3a, 0x3b, 0x53] ++ List.replicate 63 0)⟩,
    mactag := some ⟨2, some [0x5f, 0x05]⟩ }

/-- The envelope `ECIES_do_encrypt` of the library `toy32` returns for `hi`
and the recipient key 11: the ciphertext of `cvHi` and a tag of 32 bytes. -/
def cvHi32 : ECIES_CIPHERTEXT_VALUE :=
  { ephem_point := some ⟨1, some [0x23]⟩,
    ciphertext := some ⟨2, some [0x3a, 0x3c]⟩,
    mactag := some ⟨32, some (0x26 :: 0x22 :: List.replicate 30 0)⟩ }

theorem toInt32_eq_self (z : Int) (h0 : -2147483648 ≤ z) (h1 : z ≤ 2147483647) :
    toInt32 z = z := by
  unfold toInt32; omega

theorem toSizeT_eq_toNat (z : Int) (h0 : 0 ≤ z) (h1 : z < 18446744073709551616) :
    toSizeT z = z.toNat := by
  unfold toSizeT; omega

theorem toSizeT_natCast (n : Nat) (h1 : n < 18446744073709551616) :
    toSizeT (n : Int) = n := by
  unfold toSizeT; omega

/-! ## The buffer protocol of ECIES_do_decrypt -/

/-- C6 (size probe): with no output buffer, `ECIES_do_decrypt` returns 1 and
stores the ciphertext length in `*outlen`, whatever the ephemeral point and
the tag of the envelope are, and calls nothing but the initialisation and the
clean-up of its cipher context: no point decoding, key agreement, MAC
computation or decryption. -/
theorem size_probe (L : Crypto) (E : Env L) (cv : ECIES_CIPHERTEXT_VALUE)
    (param : ECIES_PARAMS L) (outlen : Nat) (pri_key : L.EC_KEY)
    (ct : ASN1_OCTET_STRING) (hct : cv.ciphertext = some ct)
    (h0 : 0 ≤ ct.length) (h1 : ct.length ≤ 2147483647) :
    ECIES_do_decrypt L E cv param none outlen pri_key =
      some { r := 1, out := none, outlen := ct.length.toNat, share := none,
             ephem_point := false, errs := [],
             calls := [Call.EVP_CIPHER_CTX_init, Call.EVP_CIPHER_CTX_cleanup] } := by
  have hs : toSizeT ct.length = ct.length.toNat :=
    toSizeT_eq_toNat _ h0 (by omega)
  simp [ECIES_do_decrypt, ECIES_do_decrypt_body, hct, hs, dec_cleanup]

/-- C7 (undersized buffer): with a buffer whose stated capacity `*outlen` is
below the ciphertext length, `ECIES_do_decrypt` returns 0 with the reason
`ECIES_R_BUFFER_TOO_SMALL`, stores the ciphertext length in `*outlen`, leaves
the buffer as it was, and calls nothing but the initialisation and the
clean-up of its cipher context. -/
theorem undersized_buffer (L : Crypto) (E : Env L) (cv : ECIES_CIPHERTEXT_VALUE)
    (param : ECIES_PARAMS L) (buf : Bytes) (outlen : Nat) (pri_key : L.EC_KEY)
    (ct : ASN1_OCTET_STRING) (hct : cv.ciphertext = some ct)
    (hsmall : (outlen : Int) < ct.length) (h1 : ct.length ≤ 2147483647) :
    ECIES_do_decrypt L E cv param (some buf) outlen pri_key =
      some { r := 0, out := some buf, outlen := ct.length.toNat, share := none,
             ephem_point := false,
             errs := [(Func.ECIES_F_ECIES_DO_DECRYPT, Reason.ECIES_R_BUFFER_TOO_SMALL)],
             calls := [Call.EVP_CIPHER_CTX_init, Call.EVP_CIPHER_CTX_cleanup] } := by
  have hs : toSizeT ct.length = ct.length.toNat :=
    toSizeT_eq_toNat _ (by omega) (by omega)
  have hi : toInt32 (outlen : Int) = outlen :=
    toInt32_eq_self _ (by omega) (by omega)
  simp [ECIES_do_decrypt, ECIES_do_decrypt_body, hct, hs, hi, hsmall, dec_cleanup, dec_err]

/-- C9 (malformed point): when the ephemeral point field of the envelope is
missing (a NULL field), empty (a NULL `data`) or does not decode as a point of
the group of the private key, `ECIES_do_decrypt` called with a buffer that
passes the size test returns 0 with the reason `ECIES_R_BAD_DATA`, leaves the
buffer and `*outlen` as they were, and has made no key agreement, MAC or
decryption call.  (When the field is present, `EC_POINT_new` must have
succeeded for the decoder to be reached.) -/
theorem malformed_point_rejected (L : Crypto) (E : Env L)
    (cv : ECIES_CIPHERTEXT_VALUE) (param : ECIES_PARAMS L) (buf : Bytes)
    (outlen : Nat) (pri_key : L.EC_KEY) (ct : ASN1_OCTET_STRING)
    (hct : cv.ciphertext = some ct) (hsz : ct.length ≤ toInt32 outlen)
    (hnew : (∃ ep d, cv.ephem_point = some ep ∧ ep.data = some d) →
      E.EC_POINT_new (L.EC_KEY_get0_group pri_key) = true)
    (hbad : dec_point L cv pri_key = none) :
    ∃ s, ECIES_do_decrypt L E cv param (some buf) outlen pri_key = some s ∧
      s.r = 0 ∧
      s.errs = [(Func.ECIES_F_ECIES_DO_DECRYPT, Reason.ECIES_R_BAD_DATA)] ∧
      s.out = some buf ∧ s.outlen = outlen ∧
      (∀ c ∈ s.calls, c.isKeyAgreement = false ∧ c.isMac = false ∧
        c.isDecryption = false) := by
  have hsz2 : ¬ toInt32 outlen < ct.length := Int.not_lt.mpr hsz
  rcases hep : cv.ephem_point with _ | ep
  · simp [ECIES_do_decrypt, ECIES_do_decrypt_body, hct, hsz2, hep, dec_err, dec_cleanup,
      Call.isDecryption, Call.isKeyAgreement, Call.isMac]
  rcases hepd : ep.data with _ | epdata
  · simp [ECIES_do_decrypt, ECIES_do_decrypt_body, hct, hsz2, hep, hepd, dec_err,
      dec_cleanup, Call.isDecryption, Call.isKeyAgreement, Call.isMac]
  have hnew2 := hnew ⟨ep, epdata, hep, hepd⟩
  simp only [dec_point, hep, hepd] at hbad
  simp [ECIES_do_decrypt, ECIES_do_decrypt_body, hct, hsz2, hep, hepd, hnew2, hbad, dec_err,
    dec_cleanup, Call.isDecryption, Call.isKeyAgreement, Call.isMac]

/-! ## Reaching and passing the MAC verification -/

theorem dec_body_of_derives (L : Crypto) (E : Env L) (cv : ECIES_CIPHERTEXT_VALUE)
    (param : ECIES_PARAMS L) (buf : Bytes) (outlen : Nat) (pri_key : L.EC_KEY)
    (ct : ASN1_OCTET_STRING) (share : Bytes)
    (h : dec_derives L E cv param outlen pri_key ct share) :
    ECIES_do_decrypt_body L E cv param (some buf) outlen pri_key =
      dec_verify L param cv ct buf outlen share (dec_enckeylen L param ct)
        (L.EVP_MD_size param.mac_md) (dec_calls_derived L param ct) := by
  obtain ⟨hct, hsz, hnew, hmalloc, hshare⟩ := h
  simp only [dec_share, hct, dec_point] at hshare
  rcases hep : cv.ephem_point with _ | ep
  · simp [hep] at hshare
  rcases hepd : ep.data with _ | epdata
  · simp [hep, hepd] at hshare
  simp only [hep, hepd] at hshare
  rcases hpt : L.EC_POINT_oct2point (L.EC_KEY_get0_group pri_key)
      (epdata.take (toSizeT ep.length)) with _ | pt
  · simp [hpt] at hshare
  simp only [hpt] at hshare
  by_cases hkd : (L.ECDH_compute_key
      (toSizeT (toInt32 (dec_enckeylen L param ct + L.EVP_MD_size param.mac_md)))
      pt pri_key param.kdf_md).1 = 0
  · simp [hkd] at hshare
  simp only [hkd, if_false, Option.some.injEq] at hshare
  simp [ECIES_do_decrypt_body, hct, hsz, hep, hepd, hnew, hpt, hmalloc, hkd, hshare,
    dec_calls_derived]

theorem dec_derives_of_accept (L : Crypto) (E : Env L) (cv : ECIES_CIPHERTEXT_VALUE)
    (param : ECIES_PARAMS L) (buf : Bytes) (outlen : Nat) (pri_key : L.EC_KEY)
    (s : DecState)
    (h : ECIES_do_decrypt L E cv param (some buf) outlen pri_key = some s)
    (hr : s.r = 1) :
    ∃ ct share, dec_derives L E cv param outlen pri_key ct share := by
  rcases hct : cv.ciphertext with _ | ct
  · simp [ECIES_do_decrypt, ECIES_do_decrypt_body, hct] at h
  by_cases hsz : toInt32 outlen < ct.length
  · simp [ECIES_do_decrypt, ECIES_do_decrypt_body, hct, hsz, dec_err, dec_cleanup] at h
    subst h; simp at hr
  rcases hep : cv.ephem_point with _ | ep
  · simp [ECIES_do_decrypt, ECIES_do_decrypt_body, hct, hsz, hep, dec_err, dec_cleanup] at h
    subst h; simp at hr
  rcases hepd : ep.data with _ | epdata
  · simp [ECIES_do_decrypt, ECIES_do_decrypt_body, hct, hsz, hep, hepd, dec_err,
      dec_cleanup] at h
    subst h; simp at hr
  by_cases hnew : E.EC_POINT_new (L.EC_KEY_get0_group pri_key) = false
  · simp [ECIES_do_decrypt, ECIES_do_decrypt_body, hct, hsz, hep, hepd, hnew, dec_err,
      dec_cleanup] at h
    subst h; simp at hr
  rcases hpt : L.EC_POINT_oct2point (L.EC_KEY_get0_group pri_key)
      (epdata.take (toSizeT ep.length)) with _ | pt
  · simp [ECIES_do_decrypt, ECIES_do_decrypt_body, hct, hsz, hep, hepd, hnew, hpt, dec_err,
      dec_cleanup] at h
    subst h; simp at hr
  by_cases hmalloc : E.OPENSSL_malloc
      (toInt32 (dec_enckeylen L param ct + L.EVP_MD_size param.mac_md)) = false
  · simp [ECIES_do_decrypt, ECIES_do_decrypt_body, hct, hsz, hep, hepd, hnew, hpt, hmalloc,
      dec_err, dec_cleanup] at h
    subst h; simp at hr
  by_cases hkd : (L.ECDH_compute_key
      (toSizeT (toInt32 (dec_enckeylen L param ct + L.EVP_MD_size param.mac_md)))
      pt pri_key param.kdf_md).1 = 0
  · simp [ECIES_do_decrypt, ECIES_do_decrypt_body, hct, hsz, hep, hepd, hnew, hpt, hmalloc,
      hkd, dec_err, dec_cleanup] at h
    subst h; simp at hr
  refine ⟨ct, (L.ECDH_compute_key
      (toSizeT (toInt32 (dec_enckeylen L param ct + L.EVP_MD_size param.mac_md)))
      pt pri_key param.kdf_md).2, hct, hsz, ?_, ?_, ?_⟩
  · simpa using hnew
  · simpa using hmalloc
  · simp [dec_share, dec_point, hct, hep, hepd, hpt, hkd]

theorem dec_verify_of_accept (L : Crypto) (param : ECIES_PARAMS L)
    (cv : ECIES_CIPHERTEXT_VALUE) (ct : ASN1_OCTET_STRING) (buf : Bytes)
    (outlen : Nat) (share : Bytes) (ekl mkl : Int) (calls : List Call)
    (s : DecState)
    (h : dec_verify L param cv ct buf outlen share ekl mkl calls = some s)
    (hr : s.r = 1) :
    ∃ tag tagdata mac, cv.mactag = some tag ∧ tag.data = some tagdata ∧
      L.HMAC param.mac_md ((share.drop ekl.toNat).take mkl.toNat)
        ((ct.data.getD []).take (toSizeT ct.length)) = some mac ∧
      (mac.length : Int) = tag.length ∧ tagdata.take mac.length = mac ∧
      dec_payload L param ct buf outlen share share
        (calls ++ [Call.HMAC ((share.drop ekl.toNat).take mkl.toNat)
          ((ct.data.getD []).take (toSizeT ct.length))]) = some s := by
  rcases htag : cv.mactag with _ | tag
  · simp [dec_verify, htag, dec_err] at h
    subst h; simp at hr
  rcases htd : tag.data with _ | tagdata
  · simp [dec_verify, htag, htd, dec_err] at h
    subst h; simp at hr
  by_cases hrd : dec_reads_defined ekl ct = false
  · simp [dec_verify, htag, htd, hrd] at h
  rcases hmac : L.HMAC param.mac_md ((share.drop ekl.toNat).take mkl.toNat)
      ((ct.data.getD []).take (toSizeT ct.length)) with _ | mac
  · simp [dec_verify, htag, htd, hrd, hmac, dec_err] at h
    subst h; simp at hr
  by_cases hlen : (mac.length : Int) = tag.length
  · by_cases heq : tagdata.take mac.length = mac
    · refine ⟨tag, tagdata, mac, rfl, htd, rfl, hlen, heq, ?_⟩
      simpa [dec_verify, htag, htd, hrd, hmac, hlen.symm, heq] using h
    · simp [dec_verify, htag, htd, hrd, hmac, hlen.symm, heq, dec_err] at h
      subst h; simp at hr
  · simp [dec_verify, htag, htd, hrd, hmac, hlen, dec_err] at h
    subst h; simp at hr

theorem dec_verify_reads (L : Crypto) (param : ECIES_PARAMS L)
    (cv : ECIES_CIPHERTEXT_VALUE) (ct : ASN1_OCTET_STRING) (buf : Bytes)
    (outlen : Nat) (share : Bytes) (ekl mkl : Int) (calls : List Call)
    (s : DecState)
    (h : dec_verify L param cv ct buf outlen share ekl mkl calls = some s)
    (hr : s.r = 1) :
    dec_reads_defined ekl ct = true := by
  rcases htag : cv.mactag with _ | tag
  · simp [dec_verify, htag, dec_err] at h
    subst h; simp at hr
  rcases htd : tag.data with _ | tagdata
  · simp [dec_verify, htag, htd, dec_err] at h
    subst h; simp at hr
  by_cases hrd : dec_reads_defined ekl ct = false
  · simp [dec_verify, htag, htd, hrd] at h
  · simpa using hrd

theorem dec_verify_mismatch (L : Crypto) (param : ECIES_PARAMS L)
    (cv : ECIES_CIPHERTEXT_VALUE) (ct : ASN1_OCTET_STRING) (buf : Bytes)
    (outlen : Nat) (share : Bytes) (ekl mkl : Int) (calls : List Call)
    (tag : ASN1_OCTET_STRING) (tagdata mac : Bytes)
    (hrd : dec_reads_defined ekl ct = true)
    (htag : cv.mactag = some tag) (htd : tag.data = some tagdata)
    (hmac : L.HMAC param.mac_md ((share.drop ekl.toNat).take mkl.toNat)
        ((ct.data.getD []).take (toSizeT ct.length)) = some mac)
    (hne : ¬ ((mac.length : Int) = tag.length ∧ tagdata.take mac.length = mac)) :
    dec_verify L param cv ct buf outlen share ekl mkl calls =
      dec_err buf outlen (some share) true
        (calls ++ [Call.HMAC ((share.drop ekl.toNat).take mkl.toNat)
          ((ct.data.getD []).take (toSizeT ct.length))])
        Func.ECIES_F_ECIES_DO_DECRYPT Reason.ECIES_R_VERIFY_MAC_FAILED := by
  by_cases hlen : (mac.length : Int) = tag.length
  · have heq : ¬ tagdata.take mac.length = mac := fun h => hne ⟨hlen, h⟩
    simp [dec_verify, htag, htd, hrd, hmac, hlen.symm, heq]
  · simp [dec_verify, htag, htd, hrd, hmac, hlen]

theorem dec_reads_defined_flip (ekl : Int) (ct : ASN1_OCTET_STRING) (d : Bytes)
    (i j : Nat) (hd : ct.data = some d) (h : dec_reads_defined ekl ct = true) :
    dec_reads_defined ekl ⟨ct.length, some (flip_bit d i j)⟩ = true := by
  simp only [dec_reads_defined, hd, Option.getD_some, flip_bit, List.length_set] at h ⊢
  exact h

/-- C5 (tampered ciphertext): if `ECIES_do_decrypt` accepts the envelope `cv`,
and `cv2` is `cv` with one bit of the ciphertext flipped (bit `j` of byte `i`;
same length, other fields unchanged), then for a MAC that gives the altered
ciphertext another tag under the derived MAC key, `ECIES_do_decrypt` on `cv2`
with the same parameters, key and buffer returns 0 with the reason
`ECIES_R_VERIFY_MAC_FAILED`, leaves the buffer and `*outlen` as they were and
makes no decryption call.  The derived MAC key of `cv2` is that of `cv`. -/
theorem ciphertext_tamper_detected (L : Crypto) (E : Env L)
    (cv : ECIES_CIPHERTEXT_VALUE) (param : ECIES_PARAMS L) (buf : Bytes)
    (outlen : Nat) (pri_key : L.EC_KEY) (s : DecState) (ct : ASN1_OCTET_STRING)
    (d : Bytes) (i j : Nat) (key mac2 : Bytes)
    (hacc : ECIES_do_decrypt L E cv param (some buf) outlen pri_key = some s)
    (hr : s.r = 1) (hct : cv.ciphertext = some ct) (hd : ct.data = some d)
    (hkey : dec_mackey L cv param pri_key = some key)
    (hmac2 : L.HMAC param.mac_md key
      (ASN1_OCTET_STRING.bytes ⟨ct.length, some (flip_bit d i j)⟩) = some mac2)
    (hne : L.HMAC param.mac_md key ct.bytes ≠ some mac2) :
    dec_mackey L { cv with ciphertext := some ⟨ct.length, some (flip_bit d i j)⟩ }
      param pri_key = some key ∧
    ∃ s2, ECIES_do_decrypt L E
        { cv with ciphertext := some ⟨ct.length, some (flip_bit d i j)⟩ }
        param (some buf) outlen pri_key = some s2 ∧
      s2.r = 0 ∧
      s2.errs = [(Func.ECIES_F_ECIES_DO_DECRYPT, Reason.ECIES_R_VERIFY_MAC_FAILED)] ∧
      s2.out = some buf ∧ s2.outlen = outlen ∧
      (∀ c ∈ s2.calls, c.isDecryption = false) := by
  obtain ⟨ct1, share, hder⟩ := dec_derives_of_accept L E cv param buf outlen pri_key s hacc hr
  have hct1 : ct1 = ct := by
    have := hder.1; rw [hct] at this; cases this; rfl
  subst hct1
  have hbody := dec_body_of_derives L E cv param buf outlen pri_key ct1 share hder
  obtain ⟨s0, hs0, hs⟩ : ∃ s0, ECIES_do_decrypt_body L E cv param (some buf) outlen
      pri_key = some s0 ∧ s = dec_cleanup s0 := by
    simp only [ECIES_do_decrypt, Option.map_eq_some'] at hacc
    obtain ⟨a, ha, hb⟩ := hacc
    exact ⟨a, ha, hb.symm⟩
  have hr0 : s0.r = 1 := by simpa [hs, dec_cleanup] using hr
  rw [hbody] at hs0
  have hrd := dec_verify_reads L param cv ct1 buf outlen share _ _ _ s0 hs0 hr0
  have hrd2 := dec_reads_defined_flip _ ct1 d i j hd hrd
  obtain ⟨tag, tagdata, mac, htag, htd, hmac, hlen, heq, _⟩ :=
    dec_verify_of_accept L param cv ct1 buf outlen share _ _ _ s0 hs0 hr0
  have hke : dec_enckeylen L param ⟨ct1.length, some (flip_bit d i j)⟩ =
      dec_enckeylen L param ct1 := by
    simp [dec_enckeylen]
  have hsh : dec_share L { cv with ciphertext := some ⟨ct1.length, some (flip_bit d i j)⟩ }
      param pri_key = some share := by
    have h5 := hder.2.2.2.2
    have hp : dec_point L
        { cv with ciphertext := some ⟨ct1.length, some (flip_bit d i j)⟩ } pri_key =
        dec_point L cv pri_key := by
      simp [dec_point]
    rcases hq : dec_point L cv pri_key with _ | pt
    · simp [dec_share, hct, hq] at h5
    · simp only [dec_share, hct, hq] at h5
      simp only [dec_share, hp, hq, hke]
      exact h5
  have hkeyv : key = (share.drop (dec_enckeylen L param ct1).toNat).take
      (L.EVP_MD_size param.mac_md).toNat := by
    simp [dec_mackey, hct, hder.2.2.2.2] at hkey
    exact hkey.symm
  have hder2 : dec_derives L E
      { cv with ciphertext := some ⟨ct1.length, some (flip_bit d i j)⟩ } param outlen
      pri_key ⟨ct1.length, some (flip_bit d i j)⟩ share := by
    obtain ⟨_, h2, h3, h4, _⟩ := hder
    exact ⟨rfl, h2, h3, by simpa [hke] using h4, hsh⟩
  have hbody2 := dec_body_of_derives L E _ param buf outlen pri_key _ share hder2
  have hmacB : L.HMAC param.mac_md
      ((share.drop (dec_enckeylen L param ct1).toNat).take (L.EVP_MD_size param.mac_md).toNat)
      (((ASN1_OCTET_STRING.mk ct1.length (some (flip_bit d i j))).data.getD []).take
        (toSizeT (ASN1_OCTET_STRING.mk ct1.length (some (flip_bit d i j))).length))
      = some mac2 := by
    rw [← hkeyv]; exact hmac2
  have hne2 : ¬ ((mac2.length : Int) = tag.length ∧ tagdata.take mac2.length = mac2) := by
    rintro ⟨h1, h2⟩
    have hl : mac2.length = mac.length := by omega
    rw [hl, heq] at h2
    apply hne
    rw [hkeyv, ← h2]
    exact hmac
  have hv := dec_verify_mismatch L param
    { cv with ciphertext := some ⟨ct1.length, some (flip_bit d i j)⟩ }
    ⟨ct1.length, some (flip_bit d i j)⟩ buf outlen
    share (dec_enckeylen L param ct1) (L.EVP_MD_size param.mac_md)
    (dec_calls_derived L param ct1) tag tagdata mac2 hrd2 htag htd hmacB hne2
  refine ⟨by simp [dec_mackey, hsh, hke, hkeyv], ?_⟩
  have hcalls : dec_calls_derived L param ⟨ct1.length, some (flip_bit d i j)⟩ =
      dec_calls_derived L param ct1 := by
    simp [dec_calls_derived, hke]
  rw [hke, hcalls] at hbody2
  rw [ECIES_do_decrypt, hbody2, hv]
  simp [dec_err, dec_cleanup, dec_calls_derived, Call.isDecryption]


/-! ## What a successful ECIES_do_encrypt has done -/

theorem enc_mactag_of_ok (L : Crypto) (E : Env L) (param : ECIES_PARAMS L)
    (cv : ECIES_CIPHERTEXT_VALUE) (ephem_key : L.EC_KEY) (share mackey : Bytes)
    (mackeylen : Int) (ct : ASN1_OCTET_STRING) (calls : List Call) (b : EncState L)
    (h : enc_mactag L E param cv ephem_key share mackey mackeylen ct calls = some b)
    (he : b.e = 0) :
    ∃ mac, L.HMAC param.mac_md (mackey.take mackeylen.toNat) ct.bytes = some mac ∧
      E.M_ASN1_OCTET_STRING_set (L.EVP_MD_size param.mac_md) = true ∧
      b = { e := 0,
            cv := some { cv with ciphertext := some ct,
                                 mactag := some ⟨L.EVP_MD_size param.mac_md, some mac⟩ },
            ephem_key := some ephem_key, share := some share, errs := [],
            calls := calls ++ [Call.M_ASN1_OCTET_STRING_set (L.EVP_MD_size param.mac_md),
              Call.HMAC (mackey.take mackeylen.toNat) ct.bytes] } := by
  by_cases hset : E.M_ASN1_OCTET_STRING_set (L.EVP_MD_size param.mac_md) = false
  · simp [enc_mactag, hset, enc_err] at h
    subst h; simp at he
  rcases hmac : L.HMAC param.mac_md (mackey.take mackeylen.toNat) ct.bytes with _ | mac
  · simp only [ASN1_OCTET_STRING.bytes] at hmac
    simp [enc_mactag, hset, hmac, enc_err] at h
    subst h; simp at he
  · refine ⟨mac, rfl, by simpa using hset, ?_⟩
    simp only [ASN1_OCTET_STRING.bytes] at hmac ⊢
    simp [enc_mactag, hset, hmac] at h
    exact h.symm


theorem enc_payload_xor_of_ok (L : Crypto) (E : Env L) (param : ECIES_PARAMS L)
    (inp : Bytes) (cv : ECIES_CIPHERTEXT_VALUE) (ephem_key : L.EC_KEY)
    (share : Bytes) (ekl mkl : Int) (calls : List Call) (b : EncState L)
    (hmode : param.sym_cipher = none)
    (h : enc_payload L E param inp cv ephem_key share ekl mkl calls = some b)
    (he : b.e = 0) :
    E.M_ASN1_OCTET_STRING_set (toInt32 inp.length) = true ∧
    enc_mactag L E param cv ephem_key share (share.drop ekl.toNat) mkl
      ⟨toInt32 inp.length, some (xor_loop (toInt32 inp.length).toNat inp share)⟩
      (calls ++ [Call.M_ASN1_OCTET_STRING_set (toInt32 inp.length),
        Call.xor_loop (toInt32 inp.length)]) = some b := by
  by_cases hset : E.M_ASN1_OCTET_STRING_set (toInt32 inp.length) = false
  · simp [enc_payload, enc_ctlen, hmode, hset, enc_err] at h
    subst h; simp at he
  · refine ⟨by simpa using hset, ?_⟩
    simpa [enc_payload, enc_ctlen, hmode, hset] using h

theorem enc_payload_cipher_of_ok (L : Crypto) (E : Env L) (param : ECIES_PARAMS L)
    (inp : Bytes) (cv : ECIES_CIPHERTEXT_VALUE) (ephem_key : L.EC_KEY)
    (share : Bytes) (ekl mkl : Int) (calls : List Call) (b : EncState L)
    (c : L.EVP_CIPHER) (hmode : param.sym_cipher = some c)
    (h : enc_payload L E param inp cv ephem_key share ekl mkl calls = some b)
    (he : b.e = 0) :
    ∃ ctx ctx1 o1 o2 data1 data2,
      E.M_ASN1_OCTET_STRING_set (enc_ctlen L param inp.length) = true ∧
      L.EVP_EncryptInit c (share.take (L.EVP_CIPHER_key_length c).toNat)
        (zero_iv L) = some ctx ∧
      L.EVP_EncryptUpdate ctx (inp.take (toInt32 inp.length).toNat) = some (ctx1, o1) ∧
      writeAt (alloc (enc_ctlen L param inp.length)) 0 o1 = some data1 ∧
      L.EVP_EncryptFinal ctx1 = some o2 ∧
      writeAt data1 o1.length o2 = some data2 ∧
      enc_mactag L E param cv ephem_key share (share.drop ekl.toNat) mkl
        ⟨toInt32 ((o1.length + o2.length : Nat) : Int), some data2⟩
        (calls ++ [Call.M_ASN1_OCTET_STRING_set (enc_ctlen L param inp.length),
          Call.EVP_EncryptInit (share.take (L.EVP_CIPHER_key_length c).toNat),
          Call.EVP_EncryptUpdate, Call.EVP_EncryptFinal]) = some b := by
  by_cases hset : E.M_ASN1_OCTET_STRING_set (enc_ctlen L param inp.length) = false
  · simp [enc_payload, hmode, hset, enc_err] at h
    subst h; simp at he
  rcases hinit : L.EVP_EncryptInit c (share.take (L.EVP_CIPHER_key_length c).toNat)
      (zero_iv L) with _ | ctx
  · simp [enc_payload, hmode, hset, hinit, enc_err] at h
    subst h; simp at he
  rcases hupd : L.EVP_EncryptUpdate ctx (inp.take (toInt32 inp.length).toNat)
    with _ | ⟨ctx1, o1⟩
  · simp [enc_payload, hmode, hset, hinit, hupd, enc_err] at h
    subst h; simp at he
  rcases hw1 : writeAt (alloc (enc_ctlen L param inp.length)) 0 o1 with _ | data1
  · simp [enc_payload, hmode, hset, hinit, hupd, hw1] at h
  rcases hfin : L.EVP_EncryptFinal ctx1 with _ | o2
  · simp [enc_payload, hmode, hset, hinit, hupd, hw1, hfin, enc_err] at h
    subst h; simp at he
  rcases hw2 : writeAt data1 o1.length o2 with _ | data2
  · simp [enc_payload, hmode, hset, hinit, hupd, hw1, hfin, hw2] at h
  refine ⟨ctx, ctx1, o1, o2, data1, data2, by simpa using hset, rfl, hupd, hw1, hfin, hw2, ?_⟩
  simpa [enc_payload, hmode, hset, hinit, hupd, hw1, hfin, hw2] using h

theorem enc_body_of_ok (L : Crypto) (E : Env L) (param : ECIES_PARAMS L)
    (inp : Bytes) (pub_key : L.EC_KEY) (b : EncState L)
    (h : ECIES_do_encrypt_body L E param inp pub_key = some b) (he : b.e = 0) :
    ∃ k0 k1 ek,
      E.EC_KEY_new = some k0 ∧
      L.EC_KEY_set_group k0 (L.EC_KEY_get0_group pub_key) = some k1 ∧
      E.EC_KEY_generate_key k1 = some ek ∧
      E.OPENSSL_malloc (enc_sharelen L param inp.length) = true ∧
      (L.ECDH_compute_key (toSizeT (enc_sharelen L param inp.length))
        (L.EC_KEY_get0_public_key pub_key) ek param.kdf_md).1 ≠ 0 ∧
      enc_payload L E param inp
        { ephem_point := some (enc_point L ek), ciphertext := some ⟨0, none⟩,
          mactag := some ⟨0, none⟩ }
        ek (enc_share L param inp pub_key ek) (enc_enckeylen L param inp.length)
        (L.EVP_MD_size param.mac_md) (enc_calls_derived L param inp ek) = some b := by
  by_cases hnew : E.ECIES_CIPHERTEXT_VALUE_new = false
  · simp [ECIES_do_encrypt_body, hnew, enc_err] at h
    subst h; simp at he
  rcases hk0 : E.EC_KEY_new with _ | k0
  · simp [ECIES_do_encrypt_body, hnew, hk0, enc_err] at h
    subst h; simp at he
  rcases hk1 : L.EC_KEY_set_group k0 (L.EC_KEY_get0_group pub_key) with _ | k1
  · simp [ECIES_do_encrypt_body, hnew, hk0, hk1, enc_err] at h
    subst h; simp at he
  rcases hek : E.EC_KEY_generate_key k1 with _ | ek
  · simp [ECIES_do_encrypt_body, hnew, hk0, hk1, hek, enc_err] at h
    subst h; simp at he
  by_cases hset : E.M_ASN1_OCTET_STRING_set (toInt32 (L.EC_POINT_point2oct_size
      (L.EC_KEY_get0_group ek) (L.EC_KEY_get0_public_key ek))) = false
  · simp [ECIES_do_encrypt_body, hnew, hk0, hk1, hek, hset, enc_err] at h
    subst h; simp at he
  by_cases henc : (L.EC_POINT_point2oct (L.EC_KEY_get0_group ek)
      (L.EC_KEY_get0_public_key ek) (toInt32 (L.EC_POINT_point2oct_size
      (L.EC_KEY_get0_group ek) (L.EC_KEY_get0_public_key ek)))).1 = 0
  · simp [ECIES_do_encrypt_body, hnew, hk0, hk1, hek, hset, henc, enc_err] at h
    subst h; simp at he
  by_cases hmalloc : E.OPENSSL_malloc (enc_sharelen L param inp.length) = false
  · simp [ECIES_do_encrypt_body, hnew, hk0, hk1, hek, hset, henc, hmalloc, enc_err] at h
    subst h; simp at he
  by_cases hkd : (L.ECDH_compute_key (toSizeT (enc_sharelen L param inp.length))
      (L.EC_KEY_get0_public_key pub_key) ek param.kdf_md).1 = 0
  · simp [ECIES_do_encrypt_body, hnew, hk0, hk1, hek, hset, henc, hmalloc, hkd, enc_err] at h
    subst h; simp at he
  refine ⟨k0, k1, ek, rfl, hk1, hek, by simpa using hmalloc, hkd, ?_⟩
  simpa [ECIES_do_encrypt_body, hnew, hk0, hk1, hek, hset, henc, hmalloc, hkd, enc_point,
    enc_point_len, enc_share, enc_calls_derived] using h


theorem enc_body_of_returned (L : Crypto) (E : Env L) (param : ECIES_PARAMS L)
    (inp : Bytes) (pub_key : L.EC_KEY) (s : EncState L) (cv : ECIES_CIPHERTEXT_VALUE)
    (h : ECIES_do_encrypt L E param inp pub_key = some s) (hcv : s.cv = some cv) :
    ∃ b, ECIES_do_encrypt_body L E param inp pub_key = some b ∧ b.e = 0 ∧
      b.cv = some cv ∧ s = enc_cleanup b := by
  simp only [ECIES_do_encrypt, Option.map_eq_some'] at h
  obtain ⟨b, hb, hs⟩ := h
  refine ⟨b, hb, ?_, ?_, hs.symm⟩
  · by_contra hne
    simp [← hs, enc_cleanup, hne] at hcv
  · by_cases he : b.e = 0
    · simpa [← hs, enc_cleanup, he] using hcv
    · simp [← hs, enc_cleanup, he] at hcv

/-- C10 (encrypt-then-MAC): when `ECIES_do_encrypt` returns an envelope, in
cipher mode and in xor mode, its tag is the HMAC, under the MAC key (the
`mackeylen` bytes of the derived key material after the first `enckeylen`),
of the bytes of the ciphertext field as returned (its final length); the
length of the tag is the digest size; and this is the only HMAC call of the
run: none is made over the plaintext. -/
theorem mac_over_ciphertext (L : Crypto) (E : Env L) (param : ECIES_PARAMS L)
    (inp : Bytes) (pub_key : L.EC_KEY) (s : EncState L) (cv : ECIES_CIPHERTEXT_VALUE)
    (h : ECIES_do_encrypt L E param inp pub_key = some s) (hcv : s.cv = some cv) :
    ∃ ek ct mac, s.ephem_key = some ek ∧
      s.share = some (enc_share L param inp pub_key ek) ∧
      cv.ciphertext = some ct ∧
      L.HMAC param.mac_md (enc_mackey L param inp pub_key ek) ct.bytes = some mac ∧
      cv.mactag = some ⟨L.EVP_MD_size param.mac_md, some mac⟩ ∧
      (∀ k d, Call.HMAC k d ∈ s.calls →
        k = enc_mackey L param inp pub_key ek ∧ d = ct.bytes) := by
  obtain ⟨b, hb, he, hbcv, hs⟩ := enc_body_of_returned L E param inp pub_key s cv h hcv
  obtain ⟨k0, k1, ek, -, -, -, -, -, hpay⟩ := enc_body_of_ok L E param inp pub_key b hb he
  rcases hmode : param.sym_cipher with _ | c
  · obtain ⟨-, hm⟩ := enc_payload_xor_of_ok L E param inp _ ek _ _ _ _ b hmode hpay he
    obtain ⟨mac, hmac, -, hbv⟩ := enc_mactag_of_ok L E param _ ek _ _ _ _ _ b hm he
    refine ⟨ek, _, mac, ?_, ?_, ?_, hmac, ?_, ?_⟩
    · simp [hs, hbv, enc_cleanup]
    · simp [hs, hbv, enc_cleanup]
    · rw [hbv] at hbcv; simp at hbcv; simp [← hbcv]
    · rw [hbv] at hbcv; simp at hbcv; simp [← hbcv]
    · intro k d hk
      simp [hs, hbv, enc_cleanup, enc_calls_derived] at hk
      simpa [enc_mackey] using hk
  · obtain ⟨ctx, ctx1, o1, o2, data1, data2, -, -, -, -, -, -, hm⟩ :=
      enc_payload_cipher_of_ok L E param inp _ ek _ _ _ _ b c hmode hpay he
    obtain ⟨mac, hmac, -, hbv⟩ := enc_mactag_of_ok L E param _ ek _ _ _ _ _ b hm he
    refine ⟨ek, _, mac, ?_, ?_, ?_, hmac, ?_, ?_⟩
    · simp [hs, hbv, enc_cleanup]
    · simp [hs, hbv, enc_cleanup]
    · rw [hbv] at hbcv; simp at hbcv; simp [← hbcv]
    · rw [hbv] at hbcv; simp at hbcv; simp [← hbcv]
    · intro k d hk
      simp [hs, hbv, enc_cleanup, enc_calls_derived] at hk
      simpa [enc_mackey] using hk


/-! ## Buffers and the xor loop -/

theorem writeAt_zero (buf src : Bytes) (h : src.length ≤ buf.length) :
    writeAt buf 0 src = some (src ++ buf.drop src.length) := by
  simp [writeAt, h]

theorem writeAt_twice (buf a b d1 d2 : Bytes) (h1 : writeAt buf 0 a = some d1)
    (h2 : writeAt d1 a.length b = some d2) :
    a.length + b.length ≤ buf.length ∧
      d2 = a ++ b ++ buf.drop (a.length + b.length) := by
  unfold writeAt at h1 h2
  split at h1
  · rename_i ha
    simp at h1
    subst h1
    split at h2
    · rename_i hb
      simp at hb ha
      simp at h2
      subst h2
      refine ⟨by omega, ?_⟩
      simp [List.take_append_eq_append_take, List.drop_append_eq_append_drop]
    · simp at h2
  · simp at h1

theorem xor_loop_length (n : Nat) (a b : Bytes) : (xor_loop n a b).length = n := by
  simp [xor_loop]

theorem xor_loop_cancel (a b : Bytes) :
    xor_loop a.length (xor_loop a.length a b) b = a := by
  apply List.ext_getElem
  · simp [xor_loop]
  · intro i h1 h2
    have hi : i < a.length := by simpa [xor_loop] using h1
    simp [xor_loop, hi, BitVec.xor_assoc]


/-! ## Round trip -/

/-- Round trip in xor mode, for a stated capacity that the size test accepts
(its cast to `int` is at least the ciphertext length; beyond INT_MAX see
`dec_too_small`).  For a plaintext whose length plus the digest size fits in
an `int`, an HMAC whose output has the digest size, an ephemeral point whose
encoding decodes to it in the group of the private key, and a key agreement
that gives both sides the same key material: if `ECIES_do_encrypt` returns the
envelope `cv`, then `ECIES_do_decrypt`, in a run whose two allocations
succeed and with a buffer that holds the plaintext, returns 1, sets
`*outlen` to the length of the plaintext and stores the plaintext at the
start of the buffer, the rest of which it leaves as it was. -/
theorem xor_round_trip (L : Crypto) (E Ed : Env L) (param : ECIES_PARAMS L)
    (inp : Bytes) (pub_key pri_key ek : L.EC_KEY) (s : EncState L)
    (cv : ECIES_CIPHERTEXT_VALUE) (buf : Bytes) (outlen : Nat)
    (hmode : param.sym_cipher = none)
    (hint : (inp.length : Int) + L.EVP_MD_size param.mac_md ≤ 2147483647)
    (hmd : ∀ k d mac, L.HMAC param.mac_md k d = some mac →
      (mac.length : Int) = L.EVP_MD_size param.mac_md)
    (henc : ECIES_do_encrypt L E param inp pub_key = some s)
    (hcv : s.cv = some cv) (hek : s.ephem_key = some ek)
    (hrt : L.EC_POINT_oct2point (L.EC_KEY_get0_group pri_key) (enc_point L ek).bytes =
      some (L.EC_KEY_get0_public_key ek))
    (hsym : L.ECDH_compute_key (toSizeT (enc_sharelen L param inp.length))
        (L.EC_KEY_get0_public_key pub_key) ek param.kdf_md =
      L.ECDH_compute_key (toSizeT (enc_sharelen L param inp.length))
        (L.EC_KEY_get0_public_key ek) pri_key param.kdf_md)
    (hnew : Ed.EC_POINT_new (L.EC_KEY_get0_group pri_key) = true)
    (hmalloc : Ed.OPENSSL_malloc (enc_sharelen L param inp.length) = true)
    (hcap : (inp.length : Int) ≤ toInt32 outlen) (hbuf : inp.length ≤ buf.length) :
    ∃ d, ECIES_do_decrypt L Ed cv param (some buf) outlen pri_key = some d ∧
      d.r = 1 ∧ d.outlen = inp.length ∧ d.out = some (inp ++ buf.drop inp.length) := by
  obtain ⟨b, hb, he, hbcv, hs⟩ := enc_body_of_returned L E param inp pub_key s cv henc hcv
  obtain ⟨k0, k1, ek1, -, -, -, -, hkd, hpay⟩ := enc_body_of_ok L E param inp pub_key b hb he
  obtain ⟨-, hm⟩ := enc_payload_xor_of_ok L E param inp _ ek1 _ _ _ _ b hmode hpay he
  obtain ⟨mac, hmac, -, hbv⟩ := enc_mactag_of_ok L E param _ ek1 _ _ _ _ _ b hm he
  have hek1 : ek1 = ek := by
    have : s.ephem_key = some ek1 := by simp [hs, hbv, enc_cleanup]
    rw [hek] at this; cases this; rfl
  subst hek1
  have hmdlen := hmd _ _ _ hmac
  have hn : toInt32 (inp.length : Int) = inp.length :=
    toInt32_eq_self _ (by omega) (by omega)
  rw [hbv] at hbcv
  simp only [Option.some.injEq] at hbcv
  subst hbcv
  simp only [hn] at hmac ⊢
  have hekl : dec_enckeylen L param
      ⟨(inp.length : Int), some (xor_loop (inp.length : Int).toNat inp
        (enc_share L param inp pub_key ek1))⟩ = enc_enckeylen L param inp.length := by
    simp [dec_enckeylen, enc_enckeylen, hmode, hn]
  have hder : dec_derives L Ed
      { ephem_point := some (enc_point L ek1),
        ciphertext := some ⟨(inp.length : Int), some (xor_loop (inp.length : Int).toNat inp
          (enc_share L param inp pub_key ek1))⟩,
        mactag := some ⟨L.EVP_MD_size param.mac_md, some mac⟩ }
      param outlen pri_key
      ⟨(inp.length : Int), some (xor_loop (inp.length : Int).toNat inp
        (enc_share L param inp pub_key ek1))⟩
      (enc_share L param inp pub_key ek1) := by
    refine ⟨rfl, by simp; omega, hnew, ?_, ?_⟩
    · rw [hekl]; exact hmalloc
    · have hrt2 := hrt
      simp only [ASN1_OCTET_STRING.bytes, enc_point, Option.getD_some] at hrt2
      simp only [dec_share, dec_point, enc_point, hrt2, hekl]
      rw [← enc_sharelen, ← hsym]
      simp [hkd, enc_share]
  have hbody := dec_body_of_derives L Ed _ param buf outlen pri_key _ _ hder
  have hsz : toSizeT (inp.length : Int) = inp.length :=
    toSizeT_natCast _ (by omega)
  have hrd : dec_reads_defined (enc_enckeylen L param inp.length)
      ⟨(inp.length : Int), some (xor_loop (inp.length : Int).toNat inp
        (enc_share L param inp pub_key ek1))⟩ = true := by
    simp [dec_reads_defined, enc_enckeylen, hmode, hn, xor_loop_length]
  simp only [ECIES_do_decrypt, hbody, hekl]
  simp only [ASN1_OCTET_STRING.bytes, Option.getD_some, enc_mackey] at hmac
  simp [hsz] at hmac
  simp only [dec_verify, hrd]
  simp [hmac, hmdlen, dec_payload, hmode, xor_loop_cancel, writeAt_zero, hbuf,
    hsz, dec_cleanup]


theorem toInt32_toNat_le (z : Int) : (toInt32 z).toNat ≤ 2147483647 := by
  unfold toInt32; omega

theorem alloc_length (n : Int) : (alloc n).length = n.toNat := by
  simp [alloc]

/-- Round trip in cipher mode, for a plaintext of at most INT_MAX bytes and
a stated capacity that the size test accepts.  For a cipher whose decryption
(init, update and final with the all-zero IV) inverts its encryption under
the same key, and under the assumptions of `xor_round_trip` on the HMAC, the
point encoding, the key agreement and the allocations: if `ECIES_do_encrypt`
returns the envelope `cv`, then `ECIES_do_decrypt` returns 1, sets `*outlen`
to the length of the plaintext and stores the plaintext at the start of the
buffer.  Both sides give the cipher the first key-length bytes of the derived
key material and give `HMAC` the digest-size bytes that follow. -/
theorem cipher_round_trip (L : Crypto) (E Ed : Env L) (param : ECIES_PARAMS L)
    (c : L.EVP_CIPHER) (inp : Bytes) (pub_key pri_key ek : L.EC_KEY)
    (s : EncState L) (cv : ECIES_CIPHERTEXT_VALUE) (ct : ASN1_OCTET_STRING)
    (buf : Bytes) (outlen : Nat)
    (hmode : param.sym_cipher = some c)
    (hint : inp.length ≤ 2147483647)
    (hkl : 0 ≤ L.EVP_CIPHER_key_length c)
    (hmd : ∀ k d mac, L.HMAC param.mac_md k d = some mac →
      (mac.length : Int) = L.EVP_MD_size param.mac_md)
    (hinv : ∀ key ctx ctx1 o1 o2, L.EVP_EncryptInit c key (zero_iv L) = some ctx →
      L.EVP_EncryptUpdate ctx inp = some (ctx1, o1) →
      L.EVP_EncryptFinal ctx1 = some o2 →
      ∃ dctx dctx1 p1 p2, L.EVP_DecryptInit c key (zero_iv L) = some dctx ∧
        L.EVP_DecryptUpdate dctx (o1 ++ o2) = some (dctx1, p1) ∧
        L.EVP_DecryptFinal dctx1 = some p2 ∧ p1 ++ p2 = inp)
    (henc : ECIES_do_encrypt L E param inp pub_key = some s)
    (hcv : s.cv = some cv) (hek : s.ephem_key = some ek)
    (hct : cv.ciphertext = some ct)
    (hrt : L.EC_POINT_oct2point (L.EC_KEY_get0_group pri_key) (enc_point L ek).bytes =
      some (L.EC_KEY_get0_public_key ek))
    (hsym : L.ECDH_compute_key (toSizeT (enc_sharelen L param inp.length))
        (L.EC_KEY_get0_public_key pub_key) ek param.kdf_md =
      L.ECDH_compute_key (toSizeT (enc_sharelen L param inp.length))
        (L.EC_KEY_get0_public_key ek) pri_key param.kdf_md)
    (hnew : Ed.EC_POINT_new (L.EC_KEY_get0_group pri_key) = true)
    (hmalloc : Ed.OPENSSL_malloc (enc_sharelen L param inp.length) = true)
    (hcap : ct.length ≤ toInt32 outlen) (hbuf : inp.length ≤ buf.length) :
    ∃ d, ECIES_do_decrypt L Ed cv param (some buf) outlen pri_key = some d ∧
      d.r = 1 ∧ d.outlen = inp.length ∧ d.out = some (inp ++ buf.drop inp.length) := by
  obtain ⟨b, hb, he, hbcv, hs⟩ := enc_body_of_returned L E param inp pub_key s cv henc hcv
  obtain ⟨k0, k1, ek1, -, -, -, -, hkd, hpay⟩ := enc_body_of_ok L E param inp pub_key b hb he
  obtain ⟨ctx, ctx1, o1, o2, data1, data2, -, hinit, hupd, hw1, hfin, hw2, hm⟩ :=
    enc_payload_cipher_of_ok L E param inp _ ek1 _ _ _ _ b c hmode hpay he
  obtain ⟨mac, hmac, -, hbv⟩ := enc_mactag_of_ok L E param _ ek1 _ _ _ _ _ b hm he
  have hek1 : ek1 = ek := by
    have : s.ephem_key = some ek1 := by simp [hs, hbv, enc_cleanup]
    rw [hek] at this; cases this; rfl
  subst hek1
  have hmdlen := hmd _ _ _ hmac
  have hn : toInt32 (inp.length : Int) = inp.length :=
    toInt32_eq_self _ (by omega) (by omega)
  have hnn : (toInt32 (inp.length : Int)).toNat = inp.length := by rw [hn]; simp
  rw [hnn, List.take_length] at hupd
  clear hnn
  obtain ⟨hfit, hd2⟩ := writeAt_twice _ _ _ _ _ hw1 hw2
  have hal : (alloc (enc_ctlen L param inp.length)).length ≤ 2147483647 := by
    rw [alloc_length]
    simp only [enc_ctlen, hmode]
    exact toInt32_toNat_le _
  have hol : toInt32 ((o1.length + o2.length : Nat) : Int) = ((o1.length + o2.length : Nat) : Int) :=
    toInt32_eq_self _ (by omega) (by omega)
  have htake : data2.take (o1.length + o2.length) = o1 ++ o2 := by
    rw [hd2, List.append_assoc, ← List.append_assoc o1]
    rw [List.take_append_eq_append_take]
    simp
  obtain ⟨dctx, dctx1, p1, p2, hdi, hdu, hdf, hpp⟩ := hinv _ _ _ _ _ hinit hupd hfin
  rw [hbv] at hbcv
  simp only [Option.some.injEq] at hbcv
  subst hbcv
  simp only [Option.some.injEq] at hct
  subst hct
  simp only [hol] at hmac hcap ⊢
  clear hol
  have hekl : dec_enckeylen L param
      ⟨((o1.length + o2.length : Nat) : Int), some data2⟩ =
      enc_enckeylen L param inp.length := by
    simp [dec_enckeylen, enc_enckeylen, hmode]
  have hder : dec_derives L Ed
      { ephem_point := some (enc_point L ek1),
        ciphertext := some ⟨((o1.length + o2.length : Nat) : Int), some data2⟩,
        mactag := some ⟨L.EVP_MD_size param.mac_md, some mac⟩ }
      param outlen pri_key
      ⟨((o1.length + o2.length : Nat) : Int), some data2⟩
      (enc_share L param inp pub_key ek1) := by
    refine ⟨rfl, Int.not_lt.mpr hcap, hnew, ?_, ?_⟩
    · rw [hekl]; exact hmalloc
    · have hrt2 := hrt
      simp only [ASN1_OCTET_STRING.bytes, enc_point, Option.getD_some] at hrt2
      simp only [dec_share, dec_point, enc_point, hrt2, hekl]
      rw [← enc_sharelen, ← hsym]
      simp [hkd, enc_share]
  have hbody := dec_body_of_derives L Ed _ param buf outlen pri_key _ _ hder
  have hsz : toSizeT ((o1.length + o2.length : Nat) : Int) = o1.length + o2.length :=
    toSizeT_natCast _ (by omega)
  have hpl : p1.length + p2.length = inp.length := by
    rw [← hpp]; simp
  have hw3 : writeAt buf 0 p1 = some (p1 ++ buf.drop p1.length) :=
    writeAt_zero _ _ (by omega)
  have hw4 : writeAt (p1 ++ buf.drop p1.length) p1.length p2 =
      some (inp ++ buf.drop inp.length) := by
    have hle : p1.length + p2.length ≤ (p1 ++ buf.drop p1.length).length := by
      simp; omega
    simp only [writeAt, hle, if_true]
    rw [← hpp]
    simp [List.drop_append_eq_append_drop, Nat.add_comm]
  have hpo : toSizeT (toInt32 ((p1.length + p2.length : Nat) : Int)) = inp.length := by
    rw [hpl, hn]; exact toSizeT_natCast _ (by omega)
  have hsz2 : toSizeT ((o1.length : Int) + (o2.length : Int)) = o1.length + o2.length := by
    have := hsz; push_cast at this; exact this
  have htn : ((o1.length : Int) + (o2.length : Int)).toNat = o1.length + o2.length := by
    omega
  have hpo2 : toSizeT (toInt32 ((p1.length : Int) + (p2.length : Int))) = inp.length := by
    have := hpo; push_cast at this; exact this
  have hdl : o1.length + o2.length ≤ data2.length := by
    rw [hd2]
    simp only [List.length_append, List.length_drop]
    omega
  have hrd : dec_reads_defined (L.EVP_CIPHER_key_length c)
      ⟨((o1.length + o2.length : Nat) : Int), some data2⟩ = true := by
    unfold dec_reads_defined
    simp only [Bool.and_eq_true, decide_eq_true_eq]
    refine ⟨⟨hkl, Int.ofNat_nonneg _⟩, ?_⟩
    simp only [Int.toNat_ofNat, Option.getD_some]
    exact hdl
  simp only [ECIES_do_decrypt, hbody, hekl]
  simp only [ASN1_OCTET_STRING.bytes, Option.getD_some, enc_mackey, hsz, htake] at hmac
  simp only [enc_enckeylen, hmode] at hdi hmac ⊢
  simp only [dec_verify, hrd]
  simp [hmac, hmdlen, dec_payload, hmode, hsz2, htn, htake, hdi, hdu, hdf, hw3,
    hw4, hpo2, dec_cleanup]


/-! ## The size test misreads capacities beyond INT_MAX -/

theorem dec_too_small (L : Crypto) (E : Env L) (cv : ECIES_CIPHERTEXT_VALUE)
    (param : ECIES_PARAMS L) (buf : Bytes) (outlen : Nat) (pri_key : L.EC_KEY)
    (ct : ASN1_OCTET_STRING) (hct : cv.ciphertext = some ct)
    (hsmall : toInt32 outlen < ct.length) :
    ECIES_do_decrypt L E cv param (some buf) outlen pri_key =
      some { r := 0, out := some buf, outlen := toSizeT ct.length, share := none,
             ephem_point := false,
             errs := [(Func.ECIES_F_ECIES_DO_DECRYPT, Reason.ECIES_R_BUFFER_TOO_SMALL)],
             calls := [Call.EVP_CIPHER_CTX_init, Call.EVP_CIPHER_CTX_cleanup] } := by
  simp [ECIES_do_decrypt, ECIES_do_decrypt_body, hct, hsmall, dec_cleanup, dec_err]

theorem enc_cipher_congr (L : Crypto) (E : Env L) (param : ECIES_PARAMS L)
    (c : L.EVP_CIPHER) (inp inp2 : Bytes) (pub_key : L.EC_KEY)
    (hmode : param.sym_cipher = some c)
    (hlen : toInt32 (inp.length : Int) = toInt32 (inp2.length : Int))
    (htake : inp.take (toInt32 (inp.length : Int)).toNat =
      inp2.take (toInt32 (inp2.length : Int)).toNat) :
    ECIES_do_encrypt L E param inp pub_key = ECIES_do_encrypt L E param inp2 pub_key := by
  have hct : enc_ctlen L param inp.length = enc_ctlen L param inp2.length := by
    simp only [enc_ctlen, hmode]
    unfold toInt32 at hlen ⊢
    push_cast
    omega
  have hek : enc_enckeylen L param inp.length = enc_enckeylen L param inp2.length := by
    simp [enc_enckeylen, hmode]
  have hsl : enc_sharelen L param inp.length = enc_sharelen L param inp2.length := by
    simp [enc_sharelen, hek]
  have hpay : ∀ cv ek share ekl mkl calls,
      enc_payload L E param inp cv ek share ekl mkl calls =
      enc_payload L E param inp2 cv ek share ekl mkl calls := by
    intro cv ek share ekl mkl calls
    rw [hlen] at htake
    simp only [enc_payload, hct, hmode, hlen, htake]
  simp only [ECIES_do_encrypt, ECIES_do_encrypt_body, hek, hsl, hpay]


/-! ## The ciphertext of xor mode -/

/-- C11 (xor-mode encryption result): without a symmetric cipher, for a
plaintext of `n` bytes with `n` plus the digest size within `int`, the
envelope a successful `ECIES_do_encrypt` returns has a ciphertext of length
exactly `n` whose byte `i` is byte `i` of the plaintext xor byte `i` of `K`,
the first `n` bytes of the derived key material, for every `i < n`, and a tag
whose length is the digest size. -/
theorem xor_ciphertext (L : Crypto) (E : Env L) (param : ECIES_PARAMS L)
    (inp : Bytes) (pub_key : L.EC_KEY) (s : EncState L) (cv : ECIES_CIPHERTEXT_VALUE)
    (hmode : param.sym_cipher = none)
    (hmd0 : 0 ≤ L.EVP_MD_size param.mac_md)
    (hint : (inp.length : Int) + L.EVP_MD_size param.mac_md ≤ 2147483647)
    (henc : ECIES_do_encrypt L E param inp pub_key = some s) (hcv : s.cv = some cv) :
    ∃ ek d mac, s.ephem_key = some ek ∧
      cv.ciphertext = some ⟨(inp.length : Int), some d⟩ ∧ d.length = inp.length ∧
      (∀ i, i < inp.length → d.getD i 0 =
        inp.getD i 0 ^^^ ((enc_share L param inp pub_key ek).take inp.length).getD i 0) ∧
      cv.mactag = some ⟨L.EVP_MD_size param.mac_md, some mac⟩ := by
  obtain ⟨b, hb, he, hbcv, hs⟩ := enc_body_of_returned L E param inp pub_key s cv henc hcv
  obtain ⟨k0, k1, ek, -, -, -, -, -, hpay⟩ := enc_body_of_ok L E param inp pub_key b hb he
  obtain ⟨-, hm⟩ := enc_payload_xor_of_ok L E param inp _ ek _ _ _ _ b hmode hpay he
  obtain ⟨mac, -, -, hbv⟩ := enc_mactag_of_ok L E param _ ek _ _ _ _ _ b hm he
  have hn : toInt32 (inp.length : Int) = inp.length :=
    toInt32_eq_self _ (by omega) (by omega)
  rw [hbv] at hbcv
  simp only [Option.some.injEq] at hbcv
  subst hbcv
  refine ⟨ek, xor_loop inp.length inp (enc_share L param inp pub_key ek), mac, ?_, ?_, ?_, ?_, ?_⟩
  · simp [hs, hbv, enc_cleanup]
  · simp [hn]
  · exact xor_loop_length _ _ _
  · intro i hi
    simp [xor_loop, hi, List.getElem?_take_of_lt hi]
  · rfl


/-! ## ECIES_do_encrypt is all or nothing -/

theorem enc_mactag_cv (L : Crypto) (E : Env L) (param : ECIES_PARAMS L)
    (cv : ECIES_CIPHERTEXT_VALUE) (ek : L.EC_KEY) (share mackey : Bytes)
    (mackeylen : Int) (ct : ASN1_OCTET_STRING) (calls : List Call) (b : EncState L)
    (hp : cv.ephem_point.isSome = true ∧ ∀ p, cv.ephem_point = some p → p.data.isSome = true)
    (hd : ct.data.isSome = true)
    (h : enc_mactag L E param cv ek share mackey mackeylen ct calls = some b) :
    ((enc_cleanup b).cv.isSome =
      (E.M_ASN1_OCTET_STRING_set (L.EVP_MD_size param.mac_md) &&
        (L.HMAC param.mac_md (mackey.take mackeylen.toNat) ct.bytes).isSome)) ∧
    (∀ cv2, (enc_cleanup b).cv = some cv2 → cv2.populated = true) := by
  by_cases hset : E.M_ASN1_OCTET_STRING_set (L.EVP_MD_size param.mac_md) = false
  · simp [enc_mactag, hset, enc_err] at h
    subst h; simp [enc_cleanup, hset]
  rcases hmac : L.HMAC param.mac_md (mackey.take mackeylen.toNat) ct.bytes with _ | mac
  · simp only [ASN1_OCTET_STRING.bytes] at hmac
    simp [enc_mactag, hset, hmac, enc_err] at h
    subst h; simp [enc_cleanup, hset, ASN1_OCTET_STRING.bytes, hmac]
  · simp only [ASN1_OCTET_STRING.bytes] at hmac
    simp [enc_mactag, hset, hmac] at h
    subst h
    obtain ⟨hp1, hp2⟩ := hp
    rcases hpp : cv.ephem_point with _ | p
    · simp [hpp] at hp1
    · have := hp2 p hpp
      simp [enc_cleanup, hset, ASN1_OCTET_STRING.bytes, hmac,
        ECIES_CIPHERTEXT_VALUE.populated, hpp, this, hd]

theorem enc_payload_cv (L : Crypto) (E : Env L) (param : ECIES_PARAMS L)
    (inp : Bytes) (cv : ECIES_CIPHERTEXT_VALUE) (ek : L.EC_KEY) (share : Bytes)
    (ekl mkl : Int) (calls : List Call) (b : EncState L)
    (hp : cv.ephem_point.isSome = true ∧ ∀ p, cv.ephem_point = some p → p.data.isSome = true)
    (h : enc_payload L E param inp cv ek share ekl mkl calls = some b) :
    ((enc_cleanup b).cv.isSome =
      (E.M_ASN1_OCTET_STRING_set (enc_ctlen L param inp.length) &&
       (match enc_ciphertext L param inp share with
        | none => false
        | some ct =>
          E.M_ASN1_OCTET_STRING_set (L.EVP_MD_size param.mac_md) &&
          (L.HMAC param.mac_md ((share.drop ekl.toNat).take mkl.toNat) ct.bytes).isSome))) ∧
    (∀ cv2, (enc_cleanup b).cv = some cv2 → cv2.populated = true) := by
  by_cases hset : E.M_ASN1_OCTET_STRING_set (enc_ctlen L param inp.length) = false
  · simp [enc_payload, hset, enc_err] at h
    subst h; simp [enc_cleanup, hset]
  have hset2 : E.M_ASN1_OCTET_STRING_set (enc_ctlen L param inp.length) = true := by
    simpa using hset
  rcases hmode : param.sym_cipher with _ | c
  · have hm : enc_mactag L E param cv ek share (share.drop ekl.toNat) mkl
        ⟨enc_ctlen L param inp.length,
          some (xor_loop (enc_ctlen L param inp.length).toNat inp share)⟩
        (calls ++ [Call.M_ASN1_OCTET_STRING_set (enc_ctlen L param inp.length),
          Call.xor_loop (enc_ctlen L param inp.length)]) = some b := by
      simpa [enc_payload, hmode, hset] using h
    have := enc_mactag_cv L E param cv ek share _ mkl _ _ b hp (by rfl) hm
    simpa [enc_ciphertext, hmode, hset2] using this
  rcases hinit : L.EVP_EncryptInit c (share.take (L.EVP_CIPHER_key_length c).toNat)
      (zero_iv L) with _ | ctx
  · simp [enc_payload, hmode, hset, hinit, enc_err] at h
    subst h; simp [enc_cleanup, hset2, enc_ciphertext, hmode, hinit]
  rcases hupd : L.EVP_EncryptUpdate ctx (inp.take (toInt32 inp.length).toNat)
    with _ | ⟨ctx1, o1⟩
  · simp [enc_payload, hmode, hset, hinit, hupd, enc_err] at h
    subst h; simp [enc_cleanup, hset2, enc_ciphertext, hmode, hinit, hupd]
  rcases hw1 : writeAt (alloc (enc_ctlen L param inp.length)) 0 o1 with _ | data1
  · simp [enc_payload, hmode, hset, hinit, hupd, hw1] at h
  rcases hfin : L.EVP_EncryptFinal ctx1 with _ | o2
  · simp [enc_payload, hmode, hset, hinit, hupd, hw1, hfin, enc_err] at h
    subst h; simp [enc_cleanup, hset2, enc_ciphertext, hmode, hinit, hupd, hw1, hfin]
  rcases hw2 : writeAt data1 o1.length o2 with _ | data2
  · simp [enc_payload, hmode, hset, hinit, hupd, hw1, hfin, hw2] at h
  have hm : enc_mactag L E param cv ek share (share.drop ekl.toNat) mkl
      ⟨toInt32 ((o1.length + o2.length : Nat) : Int), some data2⟩
      (calls ++ [Call.M_ASN1_OCTET_STRING_set (enc_ctlen L param inp.length),
        Call.EVP_EncryptInit (share.take (L.EVP_CIPHER_key_length c).toNat),
        Call.EVP_EncryptUpdate, Call.EVP_EncryptFinal]) = some b := by
    simpa [enc_payload, hmode, hset, hinit, hupd, hw1, hfin, hw2] using h
  have := enc_mactag_cv L E param cv ek share _ mkl _ _ b hp (by rfl) hm
  simpa [enc_ciphertext, hmode, hset2, hinit, hupd, hw1, hfin, hw2] using this

/-- C12 (all or nothing): in every run of `ECIES_do_encrypt`, an envelope is
returned if and only if every step succeeded (envelope allocation, ephemeral
key generation, point encoding, key agreement with the KDF, ciphertext
allocation, cipher init, update and final, MAC allocation, MAC computation,
as the code tests them); when a step fails the function returns NULL; and a
returned envelope has its three fields populated. -/
theorem encrypt_all_or_nothing (L : Crypto) (E : Env L) (param : ECIES_PARAMS L)
    (inp : Bytes) (pub_key : L.EC_KEY) (s : EncState L)
    (h : ECIES_do_encrypt L E param inp pub_key = some s) :
    (s.cv.isSome = enc_steps_succeed L E param inp pub_key) ∧
    (enc_steps_succeed L E param inp pub_key = false → s.cv = none) ∧
    (∀ cv, s.cv = some cv → cv.populated = true) := by
  have key : (s.cv.isSome = enc_steps_succeed L E param inp pub_key) ∧
      (∀ cv, s.cv = some cv → cv.populated = true) := by
    simp only [ECIES_do_encrypt, Option.map_eq_some'] at h
    obtain ⟨b, hb, hs⟩ := h
    subst hs
    by_cases hnew : E.ECIES_CIPHERTEXT_VALUE_new = false
    · simp [ECIES_do_encrypt_body, hnew, enc_err] at hb
      subst hb; simp [enc_cleanup, enc_steps_succeed, hnew]
    rcases hk0 : E.EC_KEY_new with _ | k0
    · simp [ECIES_do_encrypt_body, hnew, hk0, enc_err] at hb
      subst hb; simp [enc_cleanup, enc_steps_succeed, hk0]
    rcases hk1 : L.EC_KEY_set_group k0 (L.EC_KEY_get0_group pub_key) with _ | k1
    · simp [ECIES_do_encrypt_body, hnew, hk0, hk1, enc_err] at hb
      subst hb; simp [enc_cleanup, enc_steps_succeed, hk0, hk1]
    rcases hek : E.EC_KEY_generate_key k1 with _ | ek
    · simp [ECIES_do_encrypt_body, hnew, hk0, hk1, hek, enc_err] at hb
      subst hb; simp [enc_cleanup, enc_steps_succeed, hk0, hk1, hek]
    by_cases hset : E.M_ASN1_OCTET_STRING_set (enc_point_len L ek) = false
    · simp only [enc_point_len] at hset
      simp [ECIES_do_encrypt_body, hnew, hk0, hk1, hek, hset, enc_err] at hb
      subst hb; simp [enc_cleanup, enc_steps_succeed, hk0, hk1, hek, enc_point_len, hset]
    by_cases henc : (L.EC_POINT_point2oct (L.EC_KEY_get0_group ek)
        (L.EC_KEY_get0_public_key ek) (enc_point_len L ek)).1 = 0
    · simp only [enc_point_len] at hset henc
      simp [ECIES_do_encrypt_body, hnew, hk0, hk1, hek, hset, henc, enc_err] at hb
      subst hb; simp [enc_cleanup, enc_steps_succeed, hk0, hk1, hek, enc_point_len, henc]
    by_cases hmalloc : E.OPENSSL_malloc (enc_sharelen L param inp.length) = false
    · simp only [enc_point_len] at hset henc
      simp [ECIES_do_encrypt_body, hnew, hk0, hk1, hek, hset, henc, hmalloc, enc_err] at hb
      subst hb; simp [enc_cleanup, enc_steps_succeed, hk0, hk1, hek, hmalloc]
    by_cases hkd : (L.ECDH_compute_key (toSizeT (enc_sharelen L param inp.length))
        (L.EC_KEY_get0_public_key pub_key) ek param.kdf_md).1 = 0
    · simp only [enc_point_len] at hset henc
      simp [ECIES_do_encrypt_body, hnew, hk0, hk1, hek, hset, henc, hmalloc, hkd,
        enc_err] at hb
      subst hb; simp [enc_cleanup, enc_steps_succeed, hk0, hk1, hek, hkd]
    have hpay : enc_payload L E param inp
        { ephem_point := some (enc_point L ek), ciphertext := some ⟨0, none⟩,
          mactag := some ⟨0, none⟩ }
        ek (enc_share L param inp pub_key ek) (enc_enckeylen L param inp.length)
        (L.EVP_MD_size param.mac_md) (enc_calls_derived L param inp ek) = some b := by
      simp only [enc_point_len] at hset henc
      simpa [ECIES_do_encrypt_body, hnew, hk0, hk1, hek, hset, henc, hmalloc, hkd, enc_point,
        enc_point_len, enc_share, enc_calls_derived] using hb
    have := enc_payload_cv L E param inp _ ek _ _ _ _ b
      ⟨by rfl, by intro p hp; simp only [Option.some.injEq] at hp; subst hp; rfl⟩ hpay
    have hnew2 : E.ECIES_CIPHERTEXT_VALUE_new = true := by simpa using hnew
    have hset2 : E.M_ASN1_OCTET_STRING_set (enc_point_len L ek) = true := by simpa using hset
    have hmalloc2 : E.OPENSSL_malloc (enc_sharelen L param inp.length) = true := by
      simpa using hmalloc
    simpa [enc_steps_succeed, hnew2, hk0, hk1, hek, hset2, henc, hmalloc2, hkd,
      enc_mackey] using this
  refine ⟨key.1, ?_, key.2⟩
  intro hf
  have := key.1
  rw [hf] at this
  simpa using this


/-! ## The failures of ECIES_do_decrypt -/

theorem enc_xor_congr (L : Crypto) (E : Env L) (param : ECIES_PARAMS L)
    (inp inp2 : Bytes) (pub_key : L.EC_KEY)
    (hmode : param.sym_cipher = none)
    (hlen : toInt32 (inp.length : Int) = toInt32 (inp2.length : Int))
    (hx : ∀ share, xor_loop (toInt32 (inp.length : Int)).toNat inp share =
      xor_loop (toInt32 (inp2.length : Int)).toNat inp2 share) :
    ECIES_do_encrypt L E param inp pub_key = ECIES_do_encrypt L E param inp2 pub_key := by
  have hct : enc_ctlen L param inp.length = enc_ctlen L param inp2.length := by
    simp only [enc_ctlen, hmode, hlen]
  have hek : enc_enckeylen L param inp.length = enc_enckeylen L param inp2.length := by
    simp [enc_enckeylen, hmode, hlen]
  have hsl : enc_sharelen L param inp.length = enc_sharelen L param inp2.length := by
    simp [enc_sharelen, hek]
  have hx2 : ∀ share, xor_loop (enc_ctlen L param inp2.length).toNat inp share =
      xor_loop (enc_ctlen L param inp2.length).toNat inp2 share := by
    intro share
    have := hx share
    rw [hlen] at this
    simpa [enc_ctlen, hmode] using this
  have hpay : ∀ cv ek share ekl mkl calls,
      enc_payload L E param inp cv ek share ekl mkl calls =
      enc_payload L E param inp2 cv ek share ekl mkl calls := by
    intro cv ek share ekl mkl calls
    simp only [enc_payload, hct, hmode, hx2]
  simp only [ECIES_do_encrypt, ECIES_do_encrypt_body, hek, hsl, hpay]


/-! ## Every exit of ECIES_do_decrypt -/

theorem dec_payload_share (L : Crypto) (param : ECIES_PARAMS L)
    (ct : ASN1_OCTET_STRING) (buf : Bytes) (outlen : Nat) (share : Bytes)
    (calls : List Call) (s0 : DecState)
    (h : dec_payload L param ct buf outlen share share calls = some s0) :
    s0.share = some share := by
  rcases hmode : param.sym_cipher with _ | c
  · rcases hw : writeAt buf 0 (xor_loop ct.length.toNat (ct.data.getD []) share) with _ | b1
    · simp [dec_payload, hmode, hw] at h
    · simp [dec_payload, hmode, hw] at h
      subst h; rfl
  rcases hinit : L.EVP_DecryptInit c (share.take (L.EVP_CIPHER_key_length c).toNat)
      (zero_iv L) with _ | ctx
  · simp [dec_payload, hmode, hinit, dec_err] at h
    subst h; rfl
  rcases hupd : L.EVP_DecryptUpdate ctx ((ct.data.getD []).take ct.length.toNat)
    with _ | ⟨ctx1, p1⟩
  · simp [dec_payload, hmode, hinit, hupd, dec_err] at h
    subst h; rfl
  rcases hw1 : writeAt buf 0 p1 with _ | buf1
  · simp [dec_payload, hmode, hinit, hupd, hw1] at h
  rcases hfin : L.EVP_DecryptFinal ctx1 with _ | p2
  · simp [dec_payload, hmode, hinit, hupd, hw1, hfin, dec_err] at h
    subst h; rfl
  rcases hw2 : writeAt buf1 p1.length p2 with _ | buf2
  · simp [dec_payload, hmode, hinit, hupd, hw1, hfin, hw2] at h
  · simp [dec_payload, hmode, hinit, hupd, hw1, hfin, hw2] at h
    subst h; rfl

theorem dec_payload_fail (L : Crypto) (param : ECIES_PARAMS L)
    (ct : ASN1_OCTET_STRING) (buf : Bytes) (outlen : Nat) (share : Bytes)
    (calls : List Call) (s0 : DecState)
    (h : dec_payload L param ct buf outlen share share calls = some s0)
    (hr : s0.r = 0) :
    s0.outlen = outlen ∧
    s0.errs = [(Func.ECIES_F_ECIES_DO_DECRYPT, Reason.ECIES_R_DECRYPT_FAILED)] ∧
    (s0.out = some buf ∨
     ∃ c ctx ctx1 p1, param.sym_cipher = some c ∧
       L.EVP_DecryptInit c (share.take (L.EVP_CIPHER_key_length c).toNat) (zero_iv L)
         = some ctx ∧
       L.EVP_DecryptUpdate ctx ((ct.data.getD []).take ct.length.toNat) = some (ctx1, p1) ∧
       L.EVP_DecryptFinal ctx1 = none ∧ p1.length ≤ buf.length ∧
       s0.out = some (p1 ++ buf.drop p1.length)) := by
  rcases hmode : param.sym_cipher with _ | c
  · rcases hw : writeAt buf 0 (xor_loop ct.length.toNat (ct.data.getD []) share) with _ | b1
    · simp [dec_payload, hmode, hw] at h
    · simp [dec_payload, hmode, hw] at h
      subst h; simp at hr
  rcases hinit : L.EVP_DecryptInit c (share.take (L.EVP_CIPHER_key_length c).toNat)
      (zero_iv L) with _ | ctx
  · simp [dec_payload, hmode, hinit, dec_err] at h
    subst h; simp
  rcases hupd : L.EVP_DecryptUpdate ctx ((ct.data.getD []).take ct.length.toNat)
    with _ | ⟨ctx1, p1⟩
  · simp [dec_payload, hmode, hinit, hupd, dec_err] at h
    subst h; simp
  rcases hw1 : writeAt buf 0 p1 with _ | buf1
  · simp [dec_payload, hmode, hinit, hupd, hw1] at h
  have hle : p1.length ≤ buf.length := by
    unfold writeAt at hw1
    split at hw1
    · rename_i hh; simpa using hh
    · simp at hw1
  have hb1 : buf1 = p1 ++ buf.drop p1.length := by
    rw [writeAt_zero buf p1 hle] at hw1
    simpa using hw1.symm
  rcases hfin : L.EVP_DecryptFinal ctx1 with _ | p2
  · simp [dec_payload, hmode, hinit, hupd, hw1, hfin, dec_err] at h
    subst h
    refine ⟨rfl, rfl, Or.inr ⟨c, ctx, ctx1, p1, rfl, hinit, hupd, hfin, hle, ?_⟩⟩
    simp [hb1]
  rcases hw2 : writeAt buf1 p1.length p2 with _ | buf2
  · simp [dec_payload, hmode, hinit, hupd, hw1, hfin, hw2] at h
  · simp [dec_payload, hmode, hinit, hupd, hw1, hfin, hw2] at h
    subst h; simp at hr

theorem dec_verify_cases (L : Crypto) (param : ECIES_PARAMS L)
    (cv : ECIES_CIPHERTEXT_VALUE) (ct : ASN1_OCTET_STRING) (buf : Bytes)
    (outlen : Nat) (share : Bytes) (ekl mkl : Int) (calls : List Call)
    (s0 : DecState)
    (h : dec_verify L param cv ct buf outlen share ekl mkl calls = some s0) :
    (s0.r = 0 ∧ s0.out = some buf ∧ s0.outlen = outlen ∧ s0.share = some share) ∨
    ∃ tag tagdata mac, cv.mactag = some tag ∧ tag.data = some tagdata ∧
      L.HMAC param.mac_md ((share.drop ekl.toNat).take mkl.toNat)
        ((ct.data.getD []).take (toSizeT ct.length)) = some mac ∧
      (mac.length : Int) = tag.length ∧ tagdata.take mac.length = mac ∧
      dec_payload L param ct buf outlen share share
        (calls ++ [Call.HMAC ((share.drop ekl.toNat).take mkl.toNat)
          ((ct.data.getD []).take (toSizeT ct.length))]) = some s0 := by
  rcases htag : cv.mactag with _ | tag
  · simp [dec_verify, htag, dec_err] at h
    subst h; simp
  rcases htd : tag.data with _ | tagdata
  · simp [dec_verify, htag, htd, dec_err] at h
    subst h; simp
  by_cases hrd : dec_reads_defined ekl ct = false
  · simp [dec_verify, htag, htd, hrd] at h
  rcases hmac : L.HMAC param.mac_md ((share.drop ekl.toNat).take mkl.toNat)
      ((ct.data.getD []).take (toSizeT ct.length)) with _ | mac
  · simp [dec_verify, htag, htd, hrd, hmac, dec_err] at h
    subst h; simp
  by_cases hlen : (mac.length : Int) = tag.length
  · by_cases heq : tagdata.take mac.length = mac
    · refine Or.inr ⟨tag, tagdata, mac, rfl, htd, rfl, hlen, heq, ?_⟩
      simpa [dec_verify, htag, htd, hrd, hmac, hlen.symm, heq] using h
    · simp [dec_verify, htag, htd, hrd, hmac, hlen.symm, heq, dec_err] at h
      subst h; simp
  · simp [dec_verify, htag, htd, hrd, hmac, hlen, dec_err] at h
    subst h; simp

theorem dec_body_cases (L : Crypto) (E : Env L) (cv : ECIES_CIPHERTEXT_VALUE)
    (param : ECIES_PARAMS L) (buf : Bytes) (outlen : Nat) (pri_key : L.EC_KEY)
    (s0 : DecState)
    (h : ECIES_do_decrypt_body L E cv param (some buf) outlen pri_key = some s0) :
    (s0.r = 0 ∧ s0.out = some buf ∧
      (s0.share = none ∨
       ∃ ct pt, cv.ciphertext = some ct ∧ dec_point L cv pri_key = some pt ∧
         s0.share = some (L.ECDH_compute_key
           (toSizeT (toInt32 (dec_enckeylen L param ct + L.EVP_MD_size param.mac_md)))
           pt pri_key param.kdf_md).2)) ∨
    ∃ ct share, dec_derives L E cv param outlen pri_key ct share ∧
      dec_verify L param cv ct buf outlen share (dec_enckeylen L param ct)
        (L.EVP_MD_size param.mac_md) (dec_calls_derived L param ct) = some s0 := by
  rcases hct : cv.ciphertext with _ | ct
  · simp [ECIES_do_decrypt_body, hct] at h
  by_cases hsz : toInt32 outlen < ct.length
  · simp [ECIES_do_decrypt_body, hct, hsz, dec_err] at h
    subst h; simp
  rcases hep : cv.ephem_point with _ | ep
  · simp [ECIES_do_decrypt_body, hct, hsz, hep, dec_err] at h
    subst h; simp
  rcases hepd : ep.data with _ | epdata
  · simp [ECIES_do_decrypt_body, hct, hsz, hep, hepd, dec_err] at h
    subst h; simp
  by_cases hnew : E.EC_POINT_new (L.EC_KEY_get0_group pri_key) = false
  · simp [ECIES_do_decrypt_body, hct, hsz, hep, hepd, hnew, dec_err] at h
    subst h; simp
  rcases hpt : L.EC_POINT_oct2point (L.EC_KEY_get0_group pri_key)
      (epdata.take (toSizeT ep.length)) with _ | pt
  · simp [ECIES_do_decrypt_body, hct, hsz, hep, hepd, hnew, hpt, dec_err] at h
    subst h; simp
  by_cases hmalloc : E.OPENSSL_malloc
      (toInt32 (dec_enckeylen L param ct + L.EVP_MD_size param.mac_md)) = false
  · simp [ECIES_do_decrypt_body, hct, hsz, hep, hepd, hnew, hpt, hmalloc, dec_err] at h
    subst h; simp
  by_cases hkd : (L.ECDH_compute_key
      (toSizeT (toInt32 (dec_enckeylen L param ct + L.EVP_MD_size param.mac_md)))
      pt pri_key param.kdf_md).1 = 0
  · simp [ECIES_do_decrypt_body, hct, hsz, hep, hepd, hnew, hpt, hmalloc, hkd, dec_err] at h
    subst h
    refine Or.inl ⟨rfl, rfl, Or.inr ⟨ct, pt, rfl, ?_, rfl⟩⟩
    simp [dec_point, hep, hepd, hpt]
  have hder : dec_derives L E cv param outlen pri_key ct (L.ECDH_compute_key
      (toSizeT (toInt32 (dec_enckeylen L param ct + L.EVP_MD_size param.mac_md)))
      pt pri_key param.kdf_md).2 := by
    refine ⟨hct, hsz, ?_, ?_, ?_⟩
    · simpa using hnew
    · simpa using hmalloc
    · simp [dec_share, dec_point, hct, hep, hepd, hpt, hkd]
  refine Or.inr ⟨ct, _, hder, ?_⟩
  rw [← h]
  exact (dec_body_of_derives L E cv param buf outlen pri_key ct _ hder).symm

theorem dec_share_inv (L : Crypto) (cv : ECIES_CIPHERTEXT_VALUE)
    (param : ECIES_PARAMS L) (pri_key : L.EC_KEY) (ct : ASN1_OCTET_STRING)
    (share : Bytes) (hct : cv.ciphertext = some ct)
    (h : dec_share L cv param pri_key = some share) :
    ∃ pt, dec_point L cv pri_key = some pt ∧
      share = (L.ECDH_compute_key
        (toSizeT (toInt32 (dec_enckeylen L param ct + L.EVP_MD_size param.mac_md)))
        pt pri_key param.kdf_md).2 := by
  rcases hpt : dec_point L cv pri_key with _ | pt
  · simp [dec_share, hct, hpt] at h
  · refine ⟨pt, rfl, ?_⟩
    by_cases hkd : (L.ECDH_compute_key
        (toSizeT (toInt32 (dec_enckeylen L param ct + L.EVP_MD_size param.mac_md)))
        pt pri_key param.kdf_md).1 = 0
    · simp [dec_share, hct, hpt, hkd] at h
    · simp [dec_share, hct, hpt, hkd] at h
      exact h.symm

theorem mac_verifies_of_facts (L : Crypto) (E : Env L) (cv : ECIES_CIPHERTEXT_VALUE)
    (param : ECIES_PARAMS L) (outlen : Nat) (pri_key : L.EC_KEY)
    (ct : ASN1_OCTET_STRING) (share : Bytes) (tag : ASN1_OCTET_STRING)
    (tagdata mac : Bytes)
    (hder : dec_derives L E cv param outlen pri_key ct share)
    (htag : cv.mactag = some tag) (htd : tag.data = some tagdata)
    (hmac : L.HMAC param.mac_md
      ((share.drop (dec_enckeylen L param ct).toNat).take (L.EVP_MD_size param.mac_md).toNat)
      ((ct.data.getD []).take (toSizeT ct.length)) = some mac)
    (hlen : (mac.length : Int) = tag.length) (heq : tagdata.take mac.length = mac) :
    mac_verifies L cv param pri_key = true := by
  simp [mac_verifies, recomputed_mac, dec_mackey, hder.1, hder.2.2.2.2, htag,
    ASN1_OCTET_STRING.bytes, hmac, tag_equals, htd, hlen.symm, heq]

/-! ## The output buffer when ECIES_do_decrypt fails -/

/-- C13 (no partial plaintext on failure), as the code has it: when
`ECIES_do_decrypt` is given a buffer and returns 0, the buffer is byte for
byte as it was before the call, except in one case: the tag has verified,
`EVP_DecryptInit` and `EVP_DecryptUpdate` have succeeded and
`EVP_DecryptFinal` fails.  Then the front of the buffer holds the bytes `p1`
that `EVP_DecryptUpdate` stored, the rest is unchanged, `*outlen` is
unchanged and the reason is `ECIES_R_DECRYPT_FAILED`. -/
theorem failure_leaves_buffer (L : Crypto) (E : Env L) (cv : ECIES_CIPHERTEXT_VALUE)
    (param : ECIES_PARAMS L) (buf : Bytes) (outlen : Nat) (pri_key : L.EC_KEY)
    (s : DecState)
    (h : ECIES_do_decrypt L E cv param (some buf) outlen pri_key = some s)
    (hr : s.r = 0) :
    s.out = some buf ∨
    (mac_verifies L cv param pri_key = true ∧ s.outlen = outlen ∧
     s.errs = [(Func.ECIES_F_ECIES_DO_DECRYPT, Reason.ECIES_R_DECRYPT_FAILED)] ∧
     ∃ ct share c ctx ctx1 p1, cv.ciphertext = some ct ∧
       dec_share L cv param pri_key = some share ∧ param.sym_cipher = some c ∧
       L.EVP_DecryptInit c (share.take (L.EVP_CIPHER_key_length c).toNat) (zero_iv L)
         = some ctx ∧
       L.EVP_DecryptUpdate ctx ((ct.data.getD []).take ct.length.toNat) = some (ctx1, p1) ∧
       L.EVP_DecryptFinal ctx1 = none ∧ p1.length ≤ buf.length ∧
       s.out = some (p1 ++ buf.drop p1.length)) := by
  simp only [ECIES_do_decrypt, Option.map_eq_some'] at h
  obtain ⟨s0, hb, hs⟩ := h
  subst hs
  have hr0 : s0.r = 0 := hr
  rcases dec_body_cases L E cv param buf outlen pri_key s0 hb with ⟨_, ho, _⟩ | ⟨ct, share, hder, hv⟩
  · exact Or.inl ho
  rcases dec_verify_cases L param cv ct buf outlen share _ _ _ s0 hv with
    ⟨_, ho, _, _⟩ | ⟨tag, tagdata, mac, htag, htd, hmac, hlen, heq, hp⟩
  · exact Or.inl ho
  have hmv := mac_verifies_of_facts L E cv param outlen pri_key ct share tag tagdata mac
    hder htag htd hmac hlen heq
  obtain ⟨hol, herr, hout⟩ := dec_payload_fail L param ct buf outlen share _ s0 hp hr0
  rcases hout with ho | ⟨c, ctx, ctx1, p1, hmode, hinit, hupd, hfin, hle, ho⟩
  · exact Or.inl ho
  · exact Or.inr ⟨hmv, hol, herr, ct, share, c, ctx, ctx1, p1, hder.1, hder.2.2.2.2, hmode,
      hinit, hupd, hfin, hle, ho⟩

/-! ## The reasons ECIES_do_decrypt reports -/

theorem enc_mactag_share (L : Crypto) (E : Env L) (param : ECIES_PARAMS L)
    (cv : ECIES_CIPHERTEXT_VALUE) (ek : L.EC_KEY) (share mackey : Bytes)
    (mackeylen : Int) (ct : ASN1_OCTET_STRING) (calls : List Call) (b : EncState L)
    (h : enc_mactag L E param cv ek share mackey mackeylen ct calls = some b) :
    b.share = some share ∧ b.ephem_key = some ek := by
  by_cases hset : E.M_ASN1_OCTET_STRING_set (L.EVP_MD_size param.mac_md) = false
  · simp [enc_mactag, hset, enc_err] at h
    subst h; simp
  rcases hmac : L.HMAC param.mac_md (mackey.take mackeylen.toNat)
      ((ct.data.getD []).take (toSizeT ct.length)) with _ | mac
  · simp [enc_mactag, hset, hmac, enc_err] at h
    subst h; simp
  · simp [enc_mactag, hset, hmac] at h
    subst h; simp

theorem enc_payload_share (L : Crypto) (E : Env L) (param : ECIES_PARAMS L)
    (inp : Bytes) (cv : ECIES_CIPHERTEXT_VALUE) (ek : L.EC_KEY) (share : Bytes)
    (ekl mkl : Int) (calls : List Call) (b : EncState L)
    (h : enc_payload L E param inp cv ek share ekl mkl calls = some b) :
    b.share = some share ∧ b.ephem_key = some ek := by
  by_cases hset : E.M_ASN1_OCTET_STRING_set (enc_ctlen L param inp.length) = false
  · simp [enc_payload, hset, enc_err] at h
    subst h; simp
  rcases hmode : param.sym_cipher with _ | c
  · have hm : enc_mactag L E param cv ek share (share.drop ekl.toNat) mkl
        ⟨enc_ctlen L param inp.length,
          some (xor_loop (enc_ctlen L param inp.length).toNat inp share)⟩
        (calls ++ [Call.M_ASN1_OCTET_STRING_set (enc_ctlen L param inp.length),
          Call.xor_loop (enc_ctlen L param inp.length)]) = some b := by
      simpa [enc_payload, hmode, hset] using h
    exact enc_mactag_share L E param cv ek share _ mkl _ _ b hm
  rcases hinit : L.EVP_EncryptInit c (share.take (L.EVP_CIPHER_key_length c).toNat)
      (zero_iv L) with _ | ctx
  · simp [enc_payload, hmode, hset, hinit, enc_err] at h
    subst h; simp
  rcases hupd : L.EVP_EncryptUpdate ctx (inp.take (toInt32 inp.length).toNat)
    with _ | ⟨ctx1, o1⟩
  · simp [enc_payload, hmode, hset, hinit, hupd, enc_err] at h
    subst h; simp
  rcases hw1 : writeAt (alloc (enc_ctlen L param inp.length)) 0 o1 with _ | data1
  · simp [enc_payload, hmode, hset, hinit, hupd, hw1] at h
  rcases hfin : L.EVP_EncryptFinal ctx1 with _ | o2
  · simp [enc_payload, hmode, hset, hinit, hupd, hw1, hfin, enc_err] at h
    subst h; simp
  rcases hw2 : writeAt data1 o1.length o2 with _ | data2
  · simp [enc_payload, hmode, hset, hinit, hupd, hw1, hfin, hw2] at h
  have hm : enc_mactag L E param cv ek share (share.drop ekl.toNat) mkl
      ⟨toInt32 ((o1.length + o2.length : Nat) : Int), some data2⟩
      (calls ++ [Call.M_ASN1_OCTET_STRING_set (enc_ctlen L param inp.length),
        Call.EVP_EncryptInit (share.take (L.EVP_CIPHER_key_length c).toNat),
        Call.EVP_EncryptUpdate, Call.EVP_EncryptFinal]) = some b := by
    simpa [enc_payload, hmode, hset, hinit, hupd, hw1, hfin, hw2] using h
  exact enc_mactag_share L E param cv ek share _ mkl _ _ b hm

theorem enc_body_share (L : Crypto) (E : Env L) (param : ECIES_PARAMS L)
    (inp : Bytes) (pub_key : L.EC_KEY) (b0 : EncState L) (b : Bytes)
    (hb : ECIES_do_encrypt_body L E param inp pub_key = some b0)
    (hs : b0.share = some b) :
    ∃ ek, b0.ephem_key = some ek ∧ b = enc_share L param inp pub_key ek := by
  by_cases hnew : E.ECIES_CIPHERTEXT_VALUE_new = false
  · simp [ECIES_do_encrypt_body, hnew, enc_err] at hb
    subst hb; simp at hs
  rcases hk0 : E.EC_KEY_new with _ | k0
  · simp [ECIES_do_encrypt_body, hnew, hk0, enc_err] at hb
    subst hb; simp at hs
  rcases hk1 : L.EC_KEY_set_group k0 (L.EC_KEY_get0_group pub_key) with _ | k1
  · simp [ECIES_do_encrypt_body, hnew, hk0, hk1, enc_err] at hb
    subst hb; simp at hs
  rcases hek : E.EC_KEY_generate_key k1 with _ | ek
  · simp [ECIES_do_encrypt_body, hnew, hk0, hk1, hek, enc_err] at hb
    subst hb; simp at hs
  by_cases hset : E.M_ASN1_OCTET_STRING_set (enc_point_len L ek) = false
  · simp only [enc_point_len] at hset
    simp [ECIES_do_encrypt_body, hnew, hk0, hk1, hek, hset, enc_err] at hb
    subst hb; simp at hs
  by_cases henc : (L.EC_POINT_point2oct (L.EC_KEY_get0_group ek)
      (L.EC_KEY_get0_public_key ek) (enc_point_len L ek)).1 = 0
  · simp only [enc_point_len] at hset henc
    simp [ECIES_do_encrypt_body, hnew, hk0, hk1, hek, hset, henc, enc_err] at hb
    subst hb; simp at hs
  by_cases hmalloc : E.OPENSSL_malloc (enc_sharelen L param inp.length) = false
  · simp only [enc_point_len] at hset henc
    simp [ECIES_do_encrypt_body, hnew, hk0, hk1, hek, hset, henc, hmalloc, enc_err] at hb
    subst hb; simp at hs
  by_cases hkd : (L.ECDH_compute_key (toSizeT (enc_sharelen L param inp.length))
      (L.EC_KEY_get0_public_key pub_key) ek param.kdf_md).1 = 0
  · simp only [enc_point_len] at hset henc
    simp [ECIES_do_encrypt_body, hnew, hk0, hk1, hek, hset, henc, hmalloc, hkd,
      enc_err] at hb
    subst hb
    simp at hs
    exact ⟨ek, rfl, by rw [← hs]; rfl⟩
  have hpay : enc_payload L E param inp
      { ephem_point := some (enc_point L ek), ciphertext := some ⟨0, none⟩,
        mactag := some ⟨0, none⟩ }
      ek (enc_share L param inp pub_key ek) (enc_enckeylen L param inp.length)
      (L.EVP_MD_size param.mac_md) (enc_calls_derived L param inp ek) = some b0 := by
    simp only [enc_point_len] at hset henc
    simpa [ECIES_do_encrypt_body, hnew, hk0, hk1, hek, hset, henc, hmalloc, hkd, enc_point,
      enc_point_len, enc_share, enc_calls_derived] using hb
  obtain ⟨h1, h2⟩ := enc_payload_share L E param inp _ ek _ _ _ _ b0 hpay
  rw [h1] at hs
  simp only [Option.some.injEq] at hs
  exact ⟨ek, h2, hs.symm⟩

theorem dec_body_share (L : Crypto) (E : Env L) (cv : ECIES_CIPHERTEXT_VALUE)
    (param : ECIES_PARAMS L) (out : Option Bytes) (outlen : Nat) (pri_key : L.EC_KEY)
    (s0 : DecState) (b : Bytes)
    (hb : ECIES_do_decrypt_body L E cv param out outlen pri_key = some s0)
    (hs : s0.share = some b) :
    ∃ ct pt, cv.ciphertext = some ct ∧ dec_point L cv pri_key = some pt ∧
      b = (L.ECDH_compute_key
        (toSizeT (toInt32 (dec_enckeylen L param ct + L.EVP_MD_size param.mac_md)))
        pt pri_key param.kdf_md).2 := by
  rcases out with _ | buf
  · rcases hct : cv.ciphertext with _ | ct
    · simp [ECIES_do_decrypt_body, hct] at hb
    · simp [ECIES_do_decrypt_body, hct] at hb
      subst hb; simp at hs
  rcases dec_body_cases L E cv param buf outlen pri_key s0 hb with
    ⟨_, _, hn | ⟨ct, pt, hct, hpt, hsh⟩⟩ | ⟨ct, share, hder, hv⟩
  · rw [hn] at hs; simp at hs
  · rw [hsh] at hs
    simp only [Option.some.injEq] at hs
    exact ⟨ct, pt, hct, hpt, hs.symm⟩
  · have hsh : s0.share = some share := by
      rcases dec_verify_cases L param cv ct buf outlen share _ _ _ s0 hv with
        ⟨_, _, _, h1⟩ | ⟨_, _, _, _, _, _, _, _, hp⟩
      · exact h1
      · exact dec_payload_share L param ct buf outlen share _ s0 hp
    rw [hsh] at hs
    simp only [Option.some.injEq] at hs
    subst hs
    obtain ⟨pt, hpt, he⟩ := dec_share_inv L cv param pri_key ct share hder.1 hder.2.2.2.2
    exact ⟨ct, pt, hder.1, hpt, he⟩

/-- C16 (secret clearing), as the code has it: neither function overwrites
the key material.  On every exit of `ECIES_do_encrypt` and of
`ECIES_do_decrypt` at which the key-material buffer exists (`share` is not
NULL), the buffer is released with `OPENSSL_free` while it holds the bytes
`ECDH_compute_key` stored in it: the derived key material, encryption key
followed by MAC key. -/
theorem key_material_released_uncleared (L : Crypto) (E Ed : Env L)
    (param paramd : ECIES_PARAMS L) (inp : Bytes) (pub_key pri_key : L.EC_KEY)
    (cv : ECIES_CIPHERTEXT_VALUE) (out : Option Bytes) (outlen : Nat)
    (se : EncState L) (sd : DecState)
    (he : ECIES_do_encrypt L E param inp pub_key = some se)
    (hd : ECIES_do_decrypt L Ed cv paramd out outlen pri_key = some sd) :
    (∀ b, se.share = some b →
      Call.OPENSSL_free b ∈ se.calls ∧
      ∃ ek, se.ephem_key = some ek ∧ b = enc_share L param inp pub_key ek) ∧
    (∀ b, sd.share = some b →
      Call.OPENSSL_free b ∈ sd.calls ∧
      ∃ ct pt, cv.ciphertext = some ct ∧ dec_point L cv pri_key = some pt ∧
        b = (L.ECDH_compute_key
          (toSizeT (toInt32 (dec_enckeylen L paramd ct + L.EVP_MD_size paramd.mac_md)))
          pt pri_key paramd.kdf_md).2) := by
  simp only [ECIES_do_encrypt, Option.map_eq_some'] at he
  obtain ⟨b0, hb0, hse⟩ := he
  simp only [ECIES_do_decrypt, Option.map_eq_some'] at hd
  obtain ⟨s0, hs0, hsd⟩ := hd
  subst hse hsd
  constructor
  · intro b hs
    have hs0 : b0.share = some b := hs
    refine ⟨?_, ?_⟩
    · simp [enc_cleanup, hs0]
    · obtain ⟨ek, h1, h2⟩ := enc_body_share L E param inp pub_key b0 b hb0 hs0
      exact ⟨ek, h1, h2⟩
  · intro b hs
    have hs1 : s0.share = some b := hs
    refine ⟨?_, dec_body_share L Ed cv paramd out outlen pri_key s0 b hs0 hs1⟩
    simp [dec_cleanup, hs1]

/-! ## Envelopes with a missing field -/

theorem dec_early_exit (L : Crypto) (E : Env L) (cv : ECIES_CIPHERTEXT_VALUE)
    (param : ECIES_PARAMS L) (buf : Bytes) (outlen : Nat) (pri_key : L.EC_KEY)
    (ct : ASN1_OCTET_STRING) (hct : cv.ciphertext = some ct)
    (hno : ¬ ∃ share, dec_derives L E cv param outlen pri_key ct share) :
    ∃ s, ECIES_do_decrypt L E cv param (some buf) outlen pri_key = some s ∧
      s.r = 0 ∧ s.out = some buf ∧ s.errs.length = 1 ∧
      (∀ c ∈ s.calls, c.isMac = false ∧ c.isDecryption = false) := by
  by_cases hsz : toInt32 outlen < ct.length
  · simp [ECIES_do_decrypt, ECIES_do_decrypt_body, hct, hsz, dec_err, dec_cleanup,
      Call.isMac, Call.isDecryption]
  rcases hep : cv.ephem_point with _ | ep
  · simp [ECIES_do_decrypt, ECIES_do_decrypt_body, hct, hsz, hep, dec_err, dec_cleanup,
      Call.isMac, Call.isDecryption]
  rcases hepd : ep.data with _ | epdata
  · simp [ECIES_do_decrypt, ECIES_do_decrypt_body, hct, hsz, hep, hepd, dec_err,
      dec_cleanup, Call.isMac, Call.isDecryption]
  by_cases hnew : E.EC_POINT_new (L.EC_KEY_get0_group pri_key) = false
  · simp [ECIES_do_decrypt, ECIES_do_decrypt_body, hct, hsz, hep, hepd, hnew, dec_err,
      dec_cleanup, Call.isMac, Call.isDecryption]
  rcases hpt : L.EC_POINT_oct2point (L.EC_KEY_get0_group pri_key)
      (epdata.take (toSizeT ep.length)) with _ | pt
  · simp [ECIES_do_decrypt, ECIES_do_decrypt_body, hct, hsz, hep, hepd, hnew, hpt, dec_err,
      dec_cleanup, Call.isMac, Call.isDecryption]
  by_cases hmalloc : E.OPENSSL_malloc
      (toInt32 (dec_enckeylen L param ct + L.EVP_MD_size param.mac_md)) = false
  · simp [ECIES_do_decrypt, ECIES_do_decrypt_body, hct, hsz, hep, hepd, hnew, hpt, hmalloc,
      dec_err, dec_cleanup, Call.isMac, Call.isDecryption]
  by_cases hkd : (L.ECDH_compute_key
      (toSizeT (toInt32 (dec_enckeylen L param ct + L.EVP_MD_size param.mac_md)))
      pt pri_key param.kdf_md).1 = 0
  · simp [ECIES_do_decrypt, ECIES_do_decrypt_body, hct, hsz, hep, hepd, hnew, hpt, hmalloc,
      hkd, dec_err, dec_cleanup, Call.isMac, Call.isDecryption]
  exfalso
  apply hno
  refine ⟨(L.ECDH_compute_key
      (toSizeT (toInt32 (dec_enckeylen L param ct + L.EVP_MD_size param.mac_md)))
      pt pri_key param.kdf_md).2, hct, hsz, by simpa using hnew, by simpa using hmalloc, ?_⟩
  simp [dec_share, dec_point, hct, hep, hepd, hpt, hkd]

theorem dec_null_ciphertext (L : Crypto) (E : Env L) (cv : ECIES_CIPHERTEXT_VALUE)
    (param : ECIES_PARAMS L) (out : Option Bytes) (outlen : Nat) (pri_key : L.EC_KEY)
    (hct : cv.ciphertext = none) :
    ECIES_do_decrypt L E cv param out outlen pri_key = none := by
  rcases out with _ | buf <;> simp [ECIES_do_decrypt, ECIES_do_decrypt_body, hct]

/-- C17 (missing envelope fields), as the code has it, for the MAC tag: on
an envelope that has a ciphertext field and no MAC tag, `ECIES_do_decrypt`
never reads the tag, computes no MAC and decrypts nothing.  Without a buffer
the call is the size probe: it returns 1 with the ciphertext length in
`*outlen`.  With a buffer it returns 0 with one error and the buffer
unchanged; the error is `ECIES_R_BAD_DATA`, with `*outlen` unchanged, when
the run gets as far as the tag (size test passed, point decoded, key material
derived), and the error of the earlier failure otherwise. -/
theorem missing_tag_rejected (L : Crypto) (E : Env L) (cv : ECIES_CIPHERTEXT_VALUE)
    (param : ECIES_PARAMS L) (out : Option Bytes) (outlen : Nat) (pri_key : L.EC_KEY)
    (ct : ASN1_OCTET_STRING) (hct : cv.ciphertext = some ct)
    (htag : cv.mactag = none) :
    ∃ s, ECIES_do_decrypt L E cv param out outlen pri_key = some s ∧
      (∀ c ∈ s.calls, c.isMac = false ∧ c.isDecryption = false) ∧
      (out = none → s.r = 1 ∧ s.errs = [] ∧ s.outlen = toSizeT ct.length) ∧
      (∀ buf, out = some buf → s.r = 0 ∧ s.out = some buf ∧ s.errs.length = 1 ∧
        ∀ share, dec_derives L E cv param outlen pri_key ct share →
          s.errs = [(Func.ECIES_F_ECIES_DO_DECRYPT, Reason.ECIES_R_BAD_DATA)] ∧
          s.outlen = outlen) := by
  rcases out with _ | buf
  · simp [ECIES_do_decrypt, ECIES_do_decrypt_body, hct, dec_cleanup, Call.isMac,
      Call.isDecryption]
  by_cases hder : ∃ share, dec_derives L E cv param outlen pri_key ct share
  · obtain ⟨share, hd⟩ := hder
    have hb := dec_body_of_derives L E cv param buf outlen pri_key ct share hd
    refine ⟨_, by rw [ECIES_do_decrypt, hb]; simp only [dec_verify, htag, dec_err]; rfl,
      ?_, by simp, ?_⟩
    · simp [dec_cleanup, dec_calls_derived, Call.isMac, Call.isDecryption]
    · intro buf2 hb2
      simp only [Option.some.injEq] at hb2
      subst hb2
      simp [dec_cleanup]
  · obtain ⟨s, hs, hr, ho, he, hc⟩ :=
      dec_early_exit L E cv param buf outlen pri_key ct hct hder
    refine ⟨s, hs, hc, by simp, ?_⟩
    intro buf2 hb2
    simp only [Option.some.injEq] at hb2
    subst hb2
    exact ⟨hr, ho, he, fun share hd => absurd ⟨share, hd⟩ hder⟩

/-! ## The length ECIES_do_decrypt reports -/

theorem writeAt_twice_ok (buf a b : Bytes) (h : a.length + b.length ≤ buf.length) :
    ∃ d1, writeAt buf 0 a = some d1 ∧
      writeAt d1 a.length b = some (a ++ b ++ buf.drop (a.length + b.length)) := by
  have ha : a.length ≤ buf.length := by omega
  refine ⟨a ++ buf.drop a.length, writeAt_zero buf a ha, ?_⟩
  have hl : a.length + b.length ≤ (a ++ buf.drop a.length).length := by
    simp only [List.length_append, List.length_drop]; omega
  simp only [writeAt, hl, if_true, Option.some.injEq]
  simp [List.take_append_eq_append_take, List.drop_append_eq_append_drop]

theorem writeAt_length (buf src d : Bytes) (off : Nat)
    (h : writeAt buf off src = some d) : d.length = buf.length := by
  unfold writeAt at h
  split at h
  · rename_i hh
    simp only [Option.some.injEq] at h
    subst h
    simp only [List.length_append, List.length_take, List.length_drop]
    omega
  · simp at h

theorem enc_mactag_defined (L : Crypto) (E : Env L) (param : ECIES_PARAMS L)
    (cv : ECIES_CIPHERTEXT_VALUE) (ek : L.EC_KEY) (share mackey : Bytes)
    (mackeylen : Int) (ct : ASN1_OCTET_STRING) (calls : List Call) :
    ∃ b, enc_mactag L E param cv ek share mackey mackeylen ct calls = some b := by
  by_cases hset : E.M_ASN1_OCTET_STRING_set (L.EVP_MD_size param.mac_md) = false
  · simp [enc_mactag, hset, enc_err]
  rcases hmac : L.HMAC param.mac_md (mackey.take mackeylen.toNat)
      ((ct.data.getD []).take (toSizeT ct.length)) with _ | mac
  · simp [enc_mactag, hset, hmac, enc_err]
  · simp [enc_mactag, hset, hmac]

theorem enc_payload_defined (L : Crypto) (E : Env L) (param : ECIES_PARAMS L)
    (inp : Bytes) (cv : ECIES_CIPHERTEXT_VALUE) (ek : L.EC_KEY) (share : Bytes)
    (ekl mkl : Int) (calls : List Call)
    (hrange : (inp.length : Int) + 2 * (L.EVP_MAX_BLOCK_LENGTH : Int) ≤ 2147483647)
    (hupd : ∀ ctx x ctx1 o1, L.EVP_EncryptUpdate ctx x = some (ctx1, o1) →
      o1.length ≤ x.length + L.EVP_MAX_BLOCK_LENGTH)
    (hfin : ∀ ctx o2, L.EVP_EncryptFinal ctx = some o2 →
      o2.length ≤ L.EVP_MAX_BLOCK_LENGTH) :
    ∃ b, enc_payload L E param inp cv ek share ekl mkl calls = some b := by
  by_cases hset : E.M_ASN1_OCTET_STRING_set (enc_ctlen L param inp.length) = false
  · simp [enc_payload, hset, enc_err]
  rcases hmode : param.sym_cipher with _ | c
  · simp only [enc_payload, hset, hmode, if_false, Bool.false_eq_true]
    exact enc_mactag_defined L E param cv ek share _ mkl _ _
  have hlen : (alloc (enc_ctlen L param inp.length)).length =
      inp.length + L.EVP_MAX_BLOCK_LENGTH * 2 := by
    have hi : toInt32 ((inp.length + L.EVP_MAX_BLOCK_LENGTH * 2 : Nat) : Int) =
        ((inp.length + L.EVP_MAX_BLOCK_LENGTH * 2 : Nat) : Int) :=
      toInt32_eq_self _ (by omega) (by push_cast; omega)
    rw [alloc_length]
    simp only [enc_ctlen, hmode, hi, Int.toNat_ofNat]
  rcases hinit : L.EVP_EncryptInit c (share.take (L.EVP_CIPHER_key_length c).toNat)
      (zero_iv L) with _ | ctx
  · simp [enc_payload, hmode, hset, hinit, enc_err]
  rcases hu : L.EVP_EncryptUpdate ctx (inp.take (toInt32 inp.length).toNat)
    with _ | ⟨ctx1, o1⟩
  · simp [enc_payload, hmode, hset, hinit, hu, enc_err]
  have ho1 := hupd ctx _ ctx1 o1 hu
  have htk : (inp.take (toInt32 inp.length).toNat).length ≤ inp.length := by
    simp only [List.length_take]; omega
  have hfit1 : o1.length ≤ (alloc (enc_ctlen L param inp.length)).length := by
    rw [hlen]; omega
  have hw1 := writeAt_zero (alloc (enc_ctlen L param inp.length)) o1 hfit1
  rcases hf : L.EVP_EncryptFinal ctx1 with _ | o2
  · simp [enc_payload, hmode, hset, hinit, hu, hw1, hf, enc_err]
  have ho2 := hfin ctx1 o2 hf
  have hfit2 : o1.length + o2.length ≤ (alloc (enc_ctlen L param inp.length)).length := by
    rw [hlen]; omega
  obtain ⟨d1, hd1, hd2⟩ := writeAt_twice_ok (alloc (enc_ctlen L param inp.length)) o1 o2 hfit2
  simp only [enc_payload, hset, hmode, hinit, hu, hd1, hf, hd2, if_false, Bool.false_eq_true]
  exact enc_mactag_defined L E param cv ek share _ mkl _ _

theorem enc_defined (L : Crypto) (E : Env L) (param : ECIES_PARAMS L)
    (inp : Bytes) (pub_key : L.EC_KEY)
    (hrange : (inp.length : Int) + 2 * (L.EVP_MAX_BLOCK_LENGTH : Int) ≤ 2147483647)
    (hupd : ∀ ctx x ctx1 o1, L.EVP_EncryptUpdate ctx x = some (ctx1, o1) →
      o1.length ≤ x.length + L.EVP_MAX_BLOCK_LENGTH)
    (hfin : ∀ ctx o2, L.EVP_EncryptFinal ctx = some o2 →
      o2.length ≤ L.EVP_MAX_BLOCK_LENGTH) :
    ∃ s, ECIES_do_encrypt L E param inp pub_key = some s := by
  have key : ∃ b, ECIES_do_encrypt_body L E param inp pub_key = some b := by
    by_cases hnew : E.ECIES_CIPHERTEXT_VALUE_new = false
    · simp [ECIES_do_encrypt_body, hnew, enc_err]
    rcases hk0 : E.EC_KEY_new with _ | k0
    · simp [ECIES_do_encrypt_body, hnew, hk0, enc_err]
    rcases hk1 : L.EC_KEY_set_group k0 (L.EC_KEY_get0_group pub_key) with _ | k1
    · simp [ECIES_do_encrypt_body, hnew, hk0, hk1, enc_err]
    rcases hek : E.EC_KEY_generate_key k1 with _ | ek
    · simp [ECIES_do_encrypt_body, hnew, hk0, hk1, hek, enc_err]
    by_cases hset : E.M_ASN1_OCTET_STRING_set (enc_point_len L ek) = false
    · simp only [enc_point_len] at hset
      simp [ECIES_do_encrypt_body, hnew, hk0, hk1, hek, hset, enc_err]
    by_cases henc : (L.EC_POINT_point2oct (L.EC_KEY_get0_group ek)
        (L.EC_KEY_get0_public_key ek) (enc_point_len L ek)).1 = 0
    · simp only [enc_point_len] at hset henc
      simp [ECIES_do_encrypt_body, hnew, hk0, hk1, hek, hset, henc, enc_err]
    by_cases hmalloc : E.OPENSSL_malloc (enc_sharelen L param inp.length) = false
    · simp only [enc_point_len] at hset henc
      simp [ECIES_do_encrypt_body, hnew, hk0, hk1, hek, hset, henc, hmalloc, enc_err]
    by_cases hkd : (L.ECDH_compute_key (toSizeT (enc_sharelen L param inp.length))
        (L.EC_KEY_get0_public_key pub_key) ek param.kdf_md).1 = 0
    · simp only [enc_point_len] at hset henc
      simp [ECIES_do_encrypt_body, hnew, hk0, hk1, hek, hset, henc, hmalloc, hkd, enc_err]
    obtain ⟨b, hb⟩ := enc_payload_defined L E param inp
      { ephem_point := some (enc_point L ek), ciphertext := some ⟨0, none⟩,
        mactag := some ⟨0, none⟩ }
      ek (enc_share L param inp pub_key ek) (enc_enckeylen L param inp.length)
      (L.EVP_MD_size param.mac_md) (enc_calls_derived L param inp ek) hrange hupd hfin
    refine ⟨b, ?_⟩
    rw [← hb]
    simp only [enc_point_len] at hset henc
    simp [ECIES_do_encrypt_body, hnew, hk0, hk1, hek, hset, henc, hmalloc, hkd, enc_point,
      enc_point_len, enc_share, enc_calls_derived]
  obtain ⟨b, hb⟩ := key
  exact ⟨enc_cleanup b, by rw [ECIES_do_encrypt, hb]; rfl⟩
/-- C20 (assembly of the ciphertext in cipher mode): in every envelope
`ECIES_do_encrypt` returns in cipher mode, the ciphertext bytes are the output
`o1` of `EVP_EncryptUpdate` followed by the output `o2` of `EVP_EncryptFinal`,
the length field is the sum of their lengths, that sum is at most the size
of the buffer allocated for the ciphertext, and the tag is the MAC of
`o1 ++ o2`, the trimmed ciphertext, not of the whole buffer.  For a plaintext
with `inlen + 2 * EVP_MAX_BLOCK_LENGTH` within `int` range, the buffer has
that many bytes; when moreover the update emits at most its input length
plus one block and the finalisation at most one block, the run is defined:
nothing is stored outside the buffer. -/
theorem cipher_ciphertext_assembly (L : Crypto) (E : Env L) (param : ECIES_PARAMS L)
    (inp : Bytes) (pub_key : L.EC_KEY) (c : L.EVP_CIPHER)
    (hmode : param.sym_cipher = some c) :
    (∀ s cv, ECIES_do_encrypt L E param inp pub_key = some s → s.cv = some cv →
      ∃ ek ctx ctx1 o1 o2 ct data mac, s.ephem_key = some ek ∧
        L.EVP_EncryptInit c ((enc_share L param inp pub_key ek).take
          (L.EVP_CIPHER_key_length c).toNat) (zero_iv L) = some ctx ∧
        L.EVP_EncryptUpdate ctx (inp.take (toInt32 inp.length).toNat) = some (ctx1, o1) ∧
        L.EVP_EncryptFinal ctx1 = some o2 ∧
        cv.ciphertext = some ct ∧ ct.data = some data ∧
        ct.length = ((o1.length + o2.length : Nat) : Int) ∧
        ct.bytes = o1 ++ o2 ∧
        data.length = (enc_ctlen L param inp.length).toNat ∧
        o1.length + o2.length ≤ data.length ∧
        data = o1 ++ o2 ++ List.replicate (data.length - (o1.length + o2.length)) 0 ∧
        L.HMAC param.mac_md (enc_mackey L param inp pub_key ek) (o1 ++ o2) = some mac ∧
        cv.mactag = some ⟨L.EVP_MD_size param.mac_md, some mac⟩) ∧
    ((inp.length : Int) + 2 * (L.EVP_MAX_BLOCK_LENGTH : Int) ≤ 2147483647 →
      (enc_ctlen L param inp.length).toNat = inp.length + 2 * L.EVP_MAX_BLOCK_LENGTH ∧
      ((∀ ctx x ctx1 o1, L.EVP_EncryptUpdate ctx x = some (ctx1, o1) →
          o1.length ≤ x.length + L.EVP_MAX_BLOCK_LENGTH) →
       (∀ ctx o2, L.EVP_EncryptFinal ctx = some o2 →
          o2.length ≤ L.EVP_MAX_BLOCK_LENGTH) →
       ∃ s, ECIES_do_encrypt L E param inp pub_key = some s)) := by
  constructor
  · intro s cv h hcv
    obtain ⟨b, hb, he, hbcv, hs⟩ := enc_body_of_returned L E param inp pub_key s cv h hcv
    obtain ⟨k0, k1, ek, _, _, _, _, _, hpay⟩ := enc_body_of_ok L E param inp pub_key b hb he
    obtain ⟨ctx, ctx1, o1, o2, data1, data2, _, hinit, hu, hw1, hf, hw2, hm⟩ :=
      enc_payload_cipher_of_ok L E param inp _ ek _ _ _ _ b c hmode hpay he
    obtain ⟨mac, hmac, _, hbe⟩ := enc_mactag_of_ok L E param _ ek _ _ _ _ _ b hm he
    obtain ⟨hle, hd2⟩ := writeAt_twice _ o1 o2 data1 data2 hw1 hw2
    have hal := alloc_length (enc_ctlen L param inp.length)
    have hdl : data2.length = (enc_ctlen L param inp.length).toNat := by
      rw [writeAt_length _ _ _ _ hw2, writeAt_length _ _ _ _ hw1, hal]
    have hb31 : (enc_ctlen L param inp.length).toNat ≤ 2147483647 := by
      simp only [enc_ctlen, hmode]
      exact toInt32_toNat_le _
    have hsum : o1.length + o2.length ≤ 2147483647 := by omega
    have hi : toInt32 ((o1.length + o2.length : Nat) : Int) =
        ((o1.length + o2.length : Nat) : Int) :=
      toInt32_eq_self _ (by omega) (by omega)
    have hsz : toSizeT ((o1.length + o2.length : Nat) : Int) = o1.length + o2.length :=
      toSizeT_natCast _ (by omega)
    have hdrop : (alloc (enc_ctlen L param inp.length)).drop (o1.length + o2.length) =
        List.replicate (data2.length - (o1.length + o2.length)) 0 := by
      rw [hdl]
      simp [alloc]
    have hd3 : data2 = o1 ++ o2 ++
        List.replicate (data2.length - (o1.length + o2.length)) 0 := by
      rw [← hdrop]; exact hd2
    have hbytes : (⟨toInt32 ((o1.length + o2.length : Nat) : Int), some data2⟩ :
        ASN1_OCTET_STRING).bytes = o1 ++ o2 := by
      simp only [ASN1_OCTET_STRING.bytes, hi, hsz, Option.getD_some]
      rw [hd2]
      have : (o1 ++ o2).length = o1.length + o2.length := by simp
      rw [← this, List.take_left]
    rw [hbytes] at hmac
    have hcv2 : cv =
        { ephem_point := some (enc_point L ek),
          ciphertext := some ⟨toInt32 ((o1.length + o2.length : Nat) : Int), some data2⟩,
          mactag := some ⟨L.EVP_MD_size param.mac_md, some mac⟩ } := by
      rw [hbe] at hbcv
      simpa using hbcv.symm
    have hek : s.ephem_key = some ek := by
      rw [hs, hbe]; rfl
    have hc1 : cv.ciphertext =
        some ⟨toInt32 ((o1.length + o2.length : Nat) : Int), some data2⟩ := by rw [hcv2]
    have hc2 : cv.mactag = some ⟨L.EVP_MD_size param.mac_md, some mac⟩ := by rw [hcv2]
    have hfit : o1.length + o2.length ≤ data2.length := by omega
    refine ⟨ek, ctx, ctx1, o1, o2,
      ⟨toInt32 ((o1.length + o2.length : Nat) : Int), some data2⟩, data2, mac, hek, hinit,
      hu, hf, hc1, rfl, hi, hbytes, hdl, hfit, hd3, ?_, hc2⟩
    simpa [enc_mackey] using hmac
  · intro hrange
    have hi : toInt32 ((inp.length + L.EVP_MAX_BLOCK_LENGTH * 2 : Nat) : Int) =
        ((inp.length + L.EVP_MAX_BLOCK_LENGTH * 2 : Nat) : Int) :=
      toInt32_eq_self _ (by omega) (by push_cast; omega)
    refine ⟨?_, fun hupd hfin => enc_defined L E param inp pub_key hrange hupd hfin⟩
    simp only [enc_ctlen, hmode, hi, Int.toNat_ofNat]
    omega

/-! ## Instances -/

theorem bigPlain_length : bigPlain.length = 4294967297 := by
  unfold bigPlain
  exact List.length_replicate _ _

theorem bigPlain_toInt32 : toInt32 (bigPlain.length : Int) = 1 := by
  rw [bigPlain_length]
  decide

theorem bigPlain_take : bigPlain.take 1 = [0x61] := by
  unfold bigPlain
  rw [List.take_replicate]
  rfl

theorem enc_bigPlain :
    ECIES_do_encrypt toy toyEnv toyCipher bigPlain toyKey =
      ECIES_do_encrypt toy toyEnv toyCipher [0x61] toyKey := by
  apply enc_cipher_congr toy toyEnv toyCipher () bigPlain [0x61] toyKey rfl
  · rw [bigPlain_toInt32]; decide
  · rw [bigPlain_toInt32]
    exact bigPlain_take

theorem toy_cipher_inverts (inp key : Bytes) (ctx ctx1 : Byte)
    (o1 o2 : Bytes) (h1 : toy.EVP_EncryptInit () key (zero_iv toy) = some ctx)
    (h2 : toy.EVP_EncryptUpdate ctx inp = some (ctx1, o1))
    (h3 : toy.EVP_EncryptFinal ctx1 = some o2) :
    ∃ dctx dctx1 p1 p2, toy.EVP_DecryptInit () key (zero_iv toy) = some dctx ∧
      toy.EVP_DecryptUpdate dctx (o1 ++ o2) = some (dctx1, p1) ∧
      toy.EVP_DecryptFinal dctx1 = some p2 ∧ p1 ++ p2 = inp := by
  simp only [toy, Option.some.injEq, Prod.mk.injEq] at h2 h3
  obtain ⟨hc, ho1⟩ := h2
  subst hc h3 ho1
  refine ⟨ctx, ctx, inp, [], h1, ?_, rfl, by simp⟩
  simp only [toy, List.append_nil, List.map_map, Option.some.injEq, Prod.mk.injEq, true_and]
  have hf : ((fun b : Byte => b ^^^ ctx) ∘ fun b => b ^^^ ctx) = id := by
    funext b
    simp [BitVec.xor_assoc]
  rw [hf, List.map_id]

/-- C1 (round trip in xor mode) fails for a stated capacity beyond INT_MAX:
`ECIES_do_encrypt` returns the envelope `cvHi` for "hi"; with a two-byte
buffer `ECIES_do_decrypt` gives back "hi"; but with a buffer of 2^32 - 1 bytes
(a capacity above the ciphertext length 2) it returns 0 with the reason
`ECIES_R_BUFFER_TOO_SMALL`, because the size test reads the capacity through
a cast to `int`, which makes it -1. -/
theorem xor_round_trip_capacity_cast :
    ECIES_do_encrypt toy toyEnv toyXor hi toyKey = some encHi ∧
    encHi.cv = some cvHi ∧
    ECIES_do_decrypt toy toyEnv cvHi toyXor (some [0, 0]) 2 toyKey = some decHi ∧
    ctHi.length ≤ ((4294967295 : Nat) : Int) ∧
    ECIES_do_decrypt toy toyEnv cvHi toyXor (some (List.replicate 4294967295 0))
        4294967295 toyKey =
      some { r := 0, out := some (List.replicate 4294967295 0), outlen := 2,
             share := none, ephem_point := false,
             errs := [(Func.ECIES_F_ECIES_DO_DECRYPT, Reason.ECIES_R_BUFFER_TOO_SMALL)],
             calls := [Call.EVP_CIPHER_CTX_init, Call.EVP_CIPHER_CTX_cleanup] } :=
  ⟨rfl, rfl, by decide, by decide,
   dec_too_small toy toyEnv cvHi toyXor _ 4294967295 toyKey ctHi rfl (by decide)⟩

/-- C2 (round trip in cipher mode) fails for a plaintext longer than INT_MAX:
for the plaintext `bigPlain` of 2^32 + 1 bytes, with a cipher whose decryption
inverts its encryption, `ECIES_do_encrypt` passes `(int)inlen = 1` to
`EVP_EncryptUpdate` and returns the envelope of the first byte alone;
`ECIES_do_decrypt` accepts that envelope, returns 1 and reports `*outlen = 1`,
not the length of the plaintext. -/
theorem cipher_round_trip_truncates :
    bigPlain.length = 4294967297 ∧
    (∀ key ctx ctx1 o1 o2, toy.EVP_EncryptInit () key (zero_iv toy) = some ctx →
      toy.EVP_EncryptUpdate ctx bigPlain = some (ctx1, o1) →
      toy.EVP_EncryptFinal ctx1 = some o2 →
      ∃ dctx dctx1 p1 p2, toy.EVP_DecryptInit () key (zero_iv toy) = some dctx ∧
        toy.EVP_DecryptUpdate dctx (o1 ++ o2) = some (dctx1, p1) ∧
        toy.EVP_DecryptFinal dctx1 = some p2 ∧ p1 ++ p2 = bigPlain) ∧
    (ECIES_do_encrypt toy toyEnv toyCipher bigPlain toyKey).bind (fun s => s.cv) =
      some cvOne ∧
    ECIES_do_decrypt toy toyEnv cvOne toyCipher (some [0]) 1 toyKey =
      some { r := 1, out := some [0x61], outlen := 1,
             share := some [0x52, 0x55, 0x58], ephem_point := true, errs := [],
             calls := [.EVP_CIPHER_CTX_init, .EC_POINT_new, .EC_POINT_oct2point,
               .OPENSSL_malloc 3, .ECDH_compute_key 3, .HMAC [0x55, 0x58] [0x33],
               .EVP_DecryptInit [0x52], .EVP_DecryptUpdate, .EVP_DecryptFinal,
               .OPENSSL_free [0x52, 0x55, 0x58], .EVP_CIPHER_CTX_cleanup,
               .EC_POINT_free] } :=
  ⟨bigPlain_length, fun key ctx ctx1 o1 o2 => toy_cipher_inverts bigPlain key ctx ctx1 o1 o2,
   by rw [enc_bigPlain]; decide, by decide⟩

theorem ciphertext_tamper_detected_witness :
    flip_bit [0x3a, 0x3c] 0 0 = [0x3b, 0x3c] ∧
    (dec_mackey toy { cvHi with ciphertext := some ⟨2, some (flip_bit [0x3a, 0x3c] 0 0)⟩ }
      toyXor toyKey = some [0x58, 0x5b] ∧
    ∃ s2, ECIES_do_decrypt toy toyEnv
        { cvHi with ciphertext := some ⟨2, some (flip_bit [0x3a, 0x3c] 0 0)⟩ }
        toyXor (some [0, 0]) 2 toyKey = some s2 ∧
      s2.r = 0 ∧
      s2.errs = [(Func.ECIES_F_ECIES_DO_DECRYPT, Reason.ECIES_R_VERIFY_MAC_FAILED)] ∧
      s2.out = some [0, 0] ∧ s2.outlen = 2 ∧
      (∀ c ∈ s2.calls, c.isDecryption = false)) :=
  ⟨by decide,
   ciphertext_tamper_detected toy toyEnv cvHi toyXor [0, 0] 2 toyKey decHi ctHi
     [0x3a, 0x3c] 0 0 [0x58, 0x5b] [0x04, 0x04]
     (by decide) rfl rfl rfl (by decide) (by decide) (by decide)⟩

theorem toy_hmac_length (k d mac : Bytes) (h : toy.HMAC () k d = some mac) :
    (mac.length : Int) = toy.EVP_MD_size () := by
  simp only [toy, Option.some.injEq] at h
  subst h
  rfl

theorem xor_round_trip_witness :
    ∃ d, ECIES_do_decrypt toy toyEnv cvHi toyXor (some [0, 0, 0x77]) 3 toyKey = some d ∧
      d.r = 1 ∧ d.outlen = hi.length ∧ d.out = some (hi ++ [0, 0, 0x77].drop hi.length) :=
  xor_round_trip toy toyEnv toyEnv toyXor hi toyKey toyKey (5 : Nat) encHi cvHi
    [0, 0, 0x77] 3 rfl (by decide) toy_hmac_length rfl rfl rfl rfl rfl rfl rfl
    (by decide) (by decide)

theorem cipher_round_trip_witness :
    ∃ d, ECIES_do_decrypt toy toyEnv cvHiCipher toyCipher (some [0, 0, 0x77]) 3 toyKey =
        some d ∧
      d.r = 1 ∧ d.outlen = hi.length ∧ d.out = some (hi ++ [0, 0, 0x77].drop hi.length) :=
  cipher_round_trip toy toyEnv toyEnv toyCipher () hi toyKey toyKey (5 : Nat) _ cvHiCipher
    ⟨2, some ([0x3a, 0x3b] ++ List.replicate 64 0)⟩ [0, 0, 0x77] 3 rfl (by decide)
    (by decide) toy_hmac_length
    (fun key ctx ctx1 o1 o2 => toy_cipher_inverts hi key ctx ctx1 o1 o2)
    rfl rfl rfl rfl rfl rfl rfl rfl (by decide) (by decide)

theorem size_probe_witness :
    ctHi.length ≤ 2147483647 ∧
    ECIES_do_decrypt toy toyEnv cvHi toyXor none 0 toyKey =
      some { r := 1, out := none, outlen := 2, share := none,
             ephem_point := false, errs := [],
             calls := [Call.EVP_CIPHER_CTX_init, Call.EVP_CIPHER_CTX_cleanup] } :=
  ⟨by decide, size_probe toy toyEnv cvHi toyXor 0 toyKey ctHi rfl (by decide) (by decide)⟩

theorem undersized_buffer_witness :
    ((1 : Nat) : Int) < ctHi.length ∧
    ECIES_do_decrypt toy toyEnv cvHi toyXor (some [0x77]) 1 toyKey =
      some { r := 0, out := some [0x77], outlen := 2, share := none,
             ephem_point := false,
             errs := [(Func.ECIES_F_ECIES_DO_DECRYPT, Reason.ECIES_R_BUFFER_TOO_SMALL)],
             calls := [Call.EVP_CIPHER_CTX_init, Call.EVP_CIPHER_CTX_cleanup] } :=
  ⟨by decide,
   undersized_buffer toy toyEnv cvHi toyXor [0x77] 1 toyKey ctHi rfl (by decide) (by decide)⟩

/-- C8 (a sufficient buffer is accepted) fails for a stated capacity of 2^31:
for the envelope `cvHi` that `ECIES_do_encrypt` returns, whose ciphertext has
2 bytes, and the matching key, `ECIES_do_decrypt` called with a buffer of 2^31
bytes reports `ECIES_R_BUFFER_TOO_SMALL` and returns 0: `(int)(*outlen)` is
-2^31, which is below 2. -/
theorem sufficient_buffer_rejected :
    ECIES_do_encrypt toy toyEnv toyXor hi toyKey = some encHi ∧
    encHi.cv = some cvHi ∧
    ctHi.length ≤ ((2147483648 : Nat) : Int) ∧
    toInt32 ((2147483648 : Nat) : Int) = -2147483648 ∧
    ECIES_do_decrypt toy toyEnv cvHi toyXor (some (List.replicate 2147483648 0))
        2147483648 toyKey =
      some { r := 0, out := some (List.replicate 2147483648 0), outlen := 2,
             share := none, ephem_point := false,
             errs := [(Func.ECIES_F_ECIES_DO_DECRYPT, Reason.ECIES_R_BUFFER_TOO_SMALL)],
             calls := [Call.EVP_CIPHER_CTX_init, Call.EVP_CIPHER_CTX_cleanup] } :=
  ⟨rfl, rfl, by decide, by decide,
   dec_too_small toy toyEnv cvHi toyXor _ 2147483648 toyKey ctHi rfl (by decide)⟩

theorem malformed_point_rejected_witness :
    dec_point toy cvBadPoint toyKey = none ∧
    ∃ s, ECIES_do_decrypt toy toyEnv cvBadPoint toyXor (some [0, 0]) 2 toyKey = some s ∧
      s.r = 0 ∧
      s.errs = [(Func.ECIES_F_ECIES_DO_DECRYPT, Reason.ECIES_R_BAD_DATA)] ∧
      s.out = some [0, 0] ∧ s.outlen = 2 ∧
      (∀ c ∈ s.calls, c.isKeyAgreement = false ∧ c.isMac = false ∧
        c.isDecryption = false) :=
  ⟨rfl,
   malformed_point_rejected toy toyEnv cvBadPoint toyXor [0, 0] 2 toyKey ctHi rfl
     (by decide) (fun _ => rfl) rfl⟩

theorem mac_over_ciphertext_witness :
    ECIES_do_encrypt toy toyEnv toyXor hi toyKey = some encHi ∧
    ∃ ek ct mac, encHi.ephem_key = some ek ∧
      encHi.share = some (enc_share toy toyXor hi toyKey ek) ∧
      cvHi.ciphertext = some ct ∧
      toy.HMAC toyXor.mac_md (enc_mackey toy toyXor hi toyKey ek) ct.bytes = some mac ∧
      cvHi.mactag = some ⟨toy.EVP_MD_size toyXor.mac_md, some mac⟩ ∧
      (∀ k d, Call.HMAC k d ∈ encHi.calls →
        k = enc_mackey toy toyXor hi toyKey ek ∧ d = ct.bytes) :=
  ⟨rfl, mac_over_ciphertext toy toyEnv toyXor hi toyKey encHi cvHi rfl rfl⟩

theorem bigPlain_head : bigPlain.getD 0 0 = 0x61 := by
  have h : (bigPlain.take 1).getD 0 0 = bigPlain.getD 0 0 := by
    simp [List.getElem?_take_of_lt]
  rw [← h, bigPlain_take]
  rfl

theorem enc_bigPlain_xor :
    ECIES_do_encrypt toy toyEnv toyXor bigPlain toyKey =
      ECIES_do_encrypt toy toyEnv toyXor [0x61] toyKey := by
  apply enc_xor_congr toy toyEnv toyXor bigPlain [0x61] toyKey rfl
  · rw [bigPlain_toInt32]; decide
  · intro share
    rw [bigPlain_toInt32]
    have h1 : toInt32 ((([0x61] : Bytes).length : Nat) : Int) = 1 := by decide
    rw [h1]
    have h2 : ((1 : Int)).toNat = 1 := rfl
    rw [h2]
    have h3 : List.range 1 = [0] := rfl
    simp only [xor_loop, h3, List.map_cons, List.map_nil, bigPlain_head]
    rfl

/-- C18 (derived key-material length) fails for a plaintext longer than
INT_MAX: in xor mode, for the plaintext `bigPlain` of n = 2^32 + 1 bytes and a
digest size of 2, `enckeylen = (int)inlen` is 1 and `sharelen` is 3, so
`ECIES_do_encrypt` allocates 3 bytes and asks the KDF for 3 bytes, not for
n + macKeyLen = 4294967299. -/
theorem sharelen_wraps :
    bigPlain.length = 4294967297 ∧
    toy.EVP_MD_size toyXor.mac_md = 2 ∧
    enc_enckeylen toy toyXor bigPlain.length = 1 ∧
    enc_sharelen toy toyXor bigPlain.length = 3 ∧
    (ECIES_do_encrypt toy toyEnv toyXor bigPlain toyKey).map (fun s => s.calls) =
      some [.EVP_CIPHER_CTX_init, .ECIES_CIPHERTEXT_VALUE_new, .EC_KEY_new,
        .EC_KEY_set_group, .EC_KEY_generate_key, .EC_POINT_point2oct,
        .M_ASN1_OCTET_STRING_set 1, .EC_POINT_point2oct, .OPENSSL_malloc 3,
        .ECDH_compute_key 3, .M_ASN1_OCTET_STRING_set 1, .xor_loop 1,
        .M_ASN1_OCTET_STRING_set 2, .HMAC [0x55, 0x58] [0x33],
        .EVP_CIPHER_CTX_cleanup, .OPENSSL_free [0x52, 0x55, 0x58], .EC_KEY_free] :=
  ⟨bigPlain_length, rfl,
   by rw [enc_enckeylen, bigPlain_toInt32]; rfl,
   by rw [enc_sharelen, enc_enckeylen, bigPlain_toInt32]; decide,
   by rw [enc_bigPlain_xor]; decide⟩

/-- C13 fails as stated: with the padding cipher of `toyPad`, the envelope
`cvHiCipher` has a tag that verifies and a last ciphertext byte that does not
decrypt to the padding byte.  `ECIES_do_decrypt` returns 0 with the reason
`ECIES_R_DECRYPT_FAILED`, and the caller's buffer, three zero bytes before
the call, starts with the decrypted byte 0x68. -/
theorem partial_plaintext_on_final_failure :
    mac_verifies toyPad cvHiCipher toyCipherPad (11 : Nat) = true ∧
    ECIES_do_decrypt toyPad toyEnvPad cvHiCipher toyCipherPad (some [0, 0, 0]) 3 (11 : Nat)
      = some decPadFail ∧
    decPadFail.r = 0 ∧
    decPadFail.errs = [(Func.ECIES_F_ECIES_DO_DECRYPT, Reason.ECIES_R_DECRYPT_FAILED)] ∧
    decPadFail.out = some [0x68, 0, 0] ∧ decPadFail.out ≠ some [0, 0, 0] :=
  ⟨by decide, by decide, by decide, by decide, by decide, by decide⟩

theorem failure_leaves_buffer_witness :
    decPadFail.out = some [0, 0, 0] ∨
    (mac_verifies toyPad cvHiCipher toyCipherPad (11 : Nat) = true ∧ decPadFail.outlen = 3 ∧
     decPadFail.errs = [(Func.ECIES_F_ECIES_DO_DECRYPT, Reason.ECIES_R_DECRYPT_FAILED)] ∧
     ∃ ct share c ctx ctx1 p1, cvHiCipher.ciphertext = some ct ∧
       dec_share toyPad cvHiCipher toyCipherPad (11 : Nat) = some share ∧
       toyCipherPad.sym_cipher = some c ∧
       toyPad.EVP_DecryptInit c (share.take (toyPad.EVP_CIPHER_key_length c).toNat)
         (zero_iv toyPad) = some ctx ∧
       toyPad.EVP_DecryptUpdate ctx ((ct.data.getD []).take ct.length.toNat)
         = some (ctx1, p1) ∧
       toyPad.EVP_DecryptFinal ctx1 = none ∧ p1.length ≤ ([0, 0, 0] : Bytes).length ∧
       decPadFail.out = some (p1 ++ ([0, 0, 0] : Bytes).drop p1.length)) :=
  failure_leaves_buffer toyPad toyEnvPad cvHiCipher toyCipherPad [0, 0, 0] 3 (11 : Nat)
    decPadFail (by decide) (by decide)

/-- C16 fails as stated: encrypting `hi` and decrypting the envelope `cvHi`
(toy library, xor mode) both succeed, and both release the key-material
buffer while it holds the derived key material 52 55 58 5b, not zeros. -/
theorem key_material_not_cleared :
    ECIES_do_encrypt toy toyEnv toyXor hi toyKey = some encHi ∧
    ECIES_do_decrypt toy toyEnv cvHi toyXor (some [0, 0]) 2 toyKey = some decHi ∧
    Call.OPENSSL_free [0x52, 0x55, 0x58, 0x5b] ∈ encHi.calls ∧
    Call.OPENSSL_free [0x52, 0x55, 0x58, 0x5b] ∈ decHi.calls ∧
    released_cleared encHi.calls = false ∧ released_cleared decHi.calls = false :=
  ⟨rfl, by decide, by decide, by decide, by decide, by decide⟩

theorem key_material_released_uncleared_witness :
    (∀ b, encHi.share = some b →
      Call.OPENSSL_free b ∈ encHi.calls ∧
      ∃ ek, encHi.ephem_key = some ek ∧ b = enc_share toy toyXor hi toyKey ek) ∧
    (∀ b, decHi.share = some b →
      Call.OPENSSL_free b ∈ decHi.calls ∧
      ∃ ct pt, cvHi.ciphertext = some ct ∧ dec_point toy cvHi toyKey = some pt ∧
        b = (toy.ECDH_compute_key
          (toSizeT (toInt32 (dec_enckeylen toy toyXor ct + toy.EVP_MD_size toyXor.mac_md)))
          pt toyKey toyXor.kdf_md).2) :=
  key_material_released_uncleared toy toyEnv toyEnv toyXor toyXor hi toyKey toyKey cvHi
    (some [0, 0]) 2 encHi decHi rfl (by decide)

/-- C17 fails as stated: the envelope `cvNoTag` has no MAC tag, and
`ECIES_do_decrypt` without an output buffer returns 1 for it, with the
ciphertext length 2 in `*outlen` and no error. -/
theorem missing_tag_probe_succeeds :
    cvNoTag.mactag = none ∧
    (ECIES_do_decrypt toy toyEnv cvNoTag toyXor none 0 toyKey).map
      (fun s => (s.r, s.outlen, s.errs)) = some (1, 2, []) :=
  ⟨rfl, by decide⟩

theorem missing_tag_rejected_witness :
    ∃ s, ECIES_do_decrypt toy toyEnv cvNoTag toyXor (some [0, 0]) 2 toyKey = some s ∧
      (∀ c ∈ s.calls, c.isMac = false ∧ c.isDecryption = false) ∧
      ((some [0, 0] : Option Bytes) = none →
        s.r = 1 ∧ s.errs = [] ∧ s.outlen = toSizeT ctHi.length) ∧
      (∀ buf, (some [0, 0] : Option Bytes) = some buf →
        s.r = 0 ∧ s.out = some buf ∧ s.errs.length = 1 ∧
        ∀ share, dec_derives toy toyEnv cvNoTag toyXor 2 toyKey ctHi share →
          s.errs = [(Func.ECIES_F_ECIES_DO_DECRYPT, Reason.ECIES_R_BAD_DATA)] ∧
          s.outlen = 2) :=
  missing_tag_rejected toy toyEnv cvNoTag toyXor (some [0, 0]) 2 toyKey ctHi rfl rfl

theorem toyPad_update_bound (ctx : toyPad.EVP_CIPHER_CTX) (x : Bytes)
    (ctx1 : toyPad.EVP_CIPHER_CTX) (o1 : Bytes)
    (h : toyPad.EVP_EncryptUpdate ctx x = some (ctx1, o1)) :
    o1.length ≤ x.length + toyPad.EVP_MAX_BLOCK_LENGTH := by
  simp only [toyPad, toy, Option.some.injEq, Prod.mk.injEq] at h
  rw [← h.2]; simp

theorem toyPad_final_bound (ctx : toyPad.EVP_CIPHER_CTX) (o2 : Bytes)
    (h : toyPad.EVP_EncryptFinal ctx = some o2) :
    o2.length ≤ toyPad.EVP_MAX_BLOCK_LENGTH := by
  simp only [toyPad, Option.some.injEq] at h
  rw [← h]
  show 1 ≤ 32
  omega

theorem cipher_ciphertext_assembly_witness :
    (ECIES_do_encrypt toyPad toyEnvPad toyCipherPad hi (11 : Nat)).bind (fun s => s.cv)
      = some cvHiPad ∧
    (∀ s cv, ECIES_do_encrypt toyPad toyEnvPad toyCipherPad hi (11 : Nat) = some s →
      s.cv = some cv →
      ∃ ek ctx ctx1 o1 o2 ct data mac, s.ephem_key = some ek ∧
        toyPad.EVP_EncryptInit () ((enc_share toyPad toyCipherPad hi (11 : Nat) ek).take
          (toyPad.EVP_CIPHER_key_length ()).toNat) (zero_iv toyPad) = some ctx ∧
        toyPad.EVP_EncryptUpdate ctx (hi.take (toInt32 hi.length).toNat) = some (ctx1, o1) ∧
        toyPad.EVP_EncryptFinal ctx1 = some o2 ∧
        cv.ciphertext = some ct ∧ ct.data = some data ∧
        ct.length = ((o1.length + o2.length : Nat) : Int) ∧
        ct.bytes = o1 ++ o2 ∧
        data.length = (enc_ctlen toyPad toyCipherPad hi.length).toNat ∧
        o1.length + o2.length ≤ data.length ∧
        data = o1 ++ o2 ++ List.replicate (data.length - (o1.length + o2.length)) 0 ∧
        toyPad.HMAC toyCipherPad.mac_md (enc_mackey toyPad toyCipherPad hi (11 : Nat) ek)
          (o1 ++ o2) = some mac ∧
        cv.mactag = some ⟨toyPad.EVP_MD_size toyCipherPad.mac_md, some mac⟩) ∧
    (enc_ctlen toyPad toyCipherPad hi.length).toNat
      = hi.length + 2 * toyPad.EVP_MAX_BLOCK_LENGTH ∧
    ∃ s, ECIES_do_encrypt toyPad toyEnvPad toyCipherPad hi (11 : Nat) = some s :=
  ⟨rfl,
   (cipher_ciphertext_assembly toyPad toyEnvPad toyCipherPad hi (11 : Nat) () rfl).1,
   ((cipher_ciphertext_assembly toyPad toyEnvPad toyCipherPad hi (11 : Nat) () rfl).2
     (by decide)).1,
   ((cipher_ciphertext_assembly toyPad toyEnvPad toyCipherPad hi (11 : Nat) () rfl).2
     (by decide)).2 toyPad_update_bound toyPad_final_bound⟩

theorem xor_ciphertext_witness :
    ∃ s, ECIES_do_encrypt toy32 toyEnv32 toyXor32 hi (11 : Nat) = some s ∧
      s.cv = some cvHi32 ∧
      ∃ ek d mac, s.ephem_key = some ek ∧
        cvHi32.ciphertext = some ⟨(hi.length : Int), some d⟩ ∧ d.length = hi.length ∧
        (∀ i, i < hi.length → d.getD i 0 =
          hi.getD i 0 ^^^ ((enc_share toy32 toyXor32 hi (11 : Nat) ek).take hi.length).getD i 0) ∧
        cvHi32.mactag = some ⟨toy32.EVP_MD_size toyXor32.mac_md, some mac⟩ :=
  ⟨_, rfl, rfl,
   xor_ciphertext toy32 toyEnv32 toyXor32 hi (11 : Nat) _ cvHi32 rfl (by decide) (by decide)
     rfl rfl⟩

theorem encrypt_all_or_nothing_witness :
    ECIES_do_encrypt toy toyEnv toyXor hi toyKey = some encHi ∧
    enc_steps_succeed toy toyEnv toyXor hi toyKey = true ∧
    ((encHi.cv.isSome = enc_steps_succeed toy toyEnv toyXor hi toyKey) ∧
     (enc_steps_succeed toy toyEnv toyXor hi toyKey = false → encHi.cv = none) ∧
     (∀ cv, encHi.cv = some cv → cv.populated = true)) :=
  ⟨rfl, by decide, encrypt_all_or_nothing toy toyEnv toyXor hi toyKey encHi rfl⟩

end ECIES
